import Mathlib

/-!
Verification development for the dispatch_ng SOCKS5 dispatcher.

The definitions below are a shallow embedding of the repository's C sources:

* `src/src/interface.c`  — outgoing-interface catalogue and balancer selection
  (`interface_open`, `interface_close`, `interface_manager_new`,
  `interface_manager_get`, `interface_manager_add_from_string`);
* `src/unnamed/part_000` (`network.c`) — the address model
  (`host_address_from_str`, `host_address_to_str`, `socket_address_to_str`,
  `socket_address_from_str`);
* `src/src/main.c` — command-line processing.

C strings are modelled as `List Char`; machine integers as `Nat`/`Int` with
explicit `% 2 ^ w` where truncation matters (`htons`).  Functions that take a
C out-parameter are modelled as functions from the caller's current value of
that parameter to the pair (status, new value), so that what the C code does
to the out-parameter on failure paths is visible in the model.  Calls that
abort the process (`g_error`, `abort_with_error`) are modelled as `none` /
a fatal outcome.  Helper code of the repository that is not under `src/`
(`utils.c`, `server.c`, `balancer.c`) is modelled from the spec; each such
definition is marked `Modelled from the spec:` in its doc comment.
-/

/-- Tagged host address, the well-formed contents of the C `HostAddress`
struct (`network.c`): an IPv4 address is four octets, an IPv6 address is
eight 16-bit groups (the value of each group in network byte order, as read
by the `ntohs(pun[i])` accesses of the printer). -/
inductive HostAddress where
  | inet (o0 o1 o2 o3 : Nat)
  | inet6 (gs : List Nat)
deriving DecidableEq, Repr

/-- The C `SocketAddress`: a host plus a 16-bit port.  The C field holds the
port in network byte order; the model stores the port's numeric value (the
`htons`/`ntohs` byte swaps cancel out in the model and truncation to 16 bits
is kept explicit as `% 65536`). -/
structure SocketAddress where
  host : HostAddress
  port : Nat
deriving DecidableEq, Repr

/-- The C `Status` of `network.c` / `utils.h`. -/
inductive Status where
  | success
  | failure
deriving DecidableEq, Repr

/-- One outgoing interface (`interface.h`/`interface.c`): its bound source
address (`addr`, family implied by the bucket it lives in; port always 0)
and the live-use counter `use_count` (a C `int`, modelled as `Int`). -/
structure Interface where
  addr : HostAddress
  use_count : Int
deriving DecidableEq, Repr

/-- The `InterfaceManager` of `interface.c`: interfaces partitioned by
address family.  The C array `ifaces[INTERFACE_N_TYPES]` has two buckets,
index `INTERFACE_OFF_INET = 0` and `INTERFACE_OFF_INET6 = 1` (spec §4.3:
bit 0 = INET, bit 1 = INET6); the intrusive `next`-chained lists are
modelled as Lean lists, head first. -/
structure InterfaceManager where
  inet : List Interface
  inet6 : List Interface
deriving DecidableEq, Repr

/-- Read of the C array `manager->ifaces[i]`; indices other than 0 and 1 are
never used by the code (the loops run `i < INTERFACE_N_TYPES = 2`). -/
def InterfaceManager.bucket (m : InterfaceManager) : Nat → List Interface
  | 0 => m.inet
  | 1 => m.inet6
  | _ => []

/-- `interface_manager_new` (interface.c): all buckets empty. -/
def interface_manager_new : InterfaceManager := ⟨[], []⟩

/-- `interface_open` (interface.c), success path: after `socket()` and
`bind()` succeed (failures abort the process and are outside the model) the
function runs `g_atomic_int_inc(&interface->use_count)`. -/
def interface_open (i : Interface) : Interface :=
  { i with use_count := i.use_count + 1 }

/-- `interface_close` (interface.c): `g_atomic_int_add(&use_count, -1)`. -/
def interface_close (i : Interface) : Interface :=
  { i with use_count := i.use_count - 1 }

/-- The inner loop of `interface_manager_get`: walk one bucket's list,
carrying the current `selected` pointer; a later interface replaces the
selected one only when its `use_count` is strictly smaller. -/
def select_iter (selected : Option Interface) : List Interface → Option Interface
  | [] => selected
  | iter :: rest =>
      let selected' :=
        match selected with
        | none => some iter
        | some s => if iter.use_count < s.use_count then some iter else some s
      select_iter selected' rest

/-- `interface_manager_get` (interface.c): scan buckets `i = 0, 1`, skipping
buckets whose family bit `addr_type & (1 << i)` is clear, and keep the first
interface (in scan order) with minimal `use_count`. -/
def interface_manager_get (m : InterfaceManager) (addr_type : Nat) : Option Interface :=
  (List.range 2).foldl
    (fun selected i =>
      if addr_type &&& (1 <<< i) = 0 then selected
      else select_iter selected (m.bucket i))
    none

/-- State-passing rendering of the inner loop of `interface_manager_get`:
the manager is threaded through every iteration exactly as the imperative
loop carries the heap, making it visible that no iteration writes to it. -/
def select_iter_st (st : InterfaceManager × Option Interface) :
    List Interface → InterfaceManager × Option Interface
  | [] => st
  | iter :: rest =>
      let selected' :=
        match st.2 with
        | none => some iter
        | some s => if iter.use_count < s.use_count then some iter else some s
      select_iter_st (st.1, selected') rest

/-- State-passing rendering of `interface_manager_get` (used to state that
selection is read-only, claim C9). -/
def interface_manager_get_st (m : InterfaceManager) (addr_type : Nat) :
    InterfaceManager × Option Interface :=
  (List.range 2).foldl
    (fun st i =>
      if addr_type &&& (1 <<< i) = 0 then st
      else select_iter_st st (st.1.bucket i))
    (m, none)

/-- The sequence of interfaces `interface_manager_get` scans for a given
family mask: the INET bucket (if bit 0 of the mask is set) followed by the
INET6 bucket (if bit 1 is set), each in list order. -/
def eligible_list (m : InterfaceManager) (addr_type : Nat) : List Interface :=
  (if addr_type &&& (1 <<< 0) = 0 then [] else m.bucket 0) ++
  (if addr_type &&& (1 <<< 1) = 0 then [] else m.bucket 1)

/-- Replace the `k`-th element of a list (the interface a session holds a
pointer to) by `f` of it; used to express in-place updates through the
pointer returned by `interface_manager_get`. -/
def modifyAt (f : Interface → Interface) : Nat → List Interface → List Interface
  | _, [] => []
  | 0, x :: rest => f x :: rest
  | k + 1, x :: rest => x :: modifyAt f k rest

/-- Effect on the manager of `interface_open` applied through a pointer to
the `k`-th interface of bucket `fi`. -/
def manager_open_at (m : InterfaceManager) (fi k : Nat) : InterfaceManager :=
  if fi = 0 then { m with inet := modifyAt interface_open k m.inet }
  else if fi = 1 then { m with inet6 := modifyAt interface_open k m.inet6 }
  else m

/-- Effect on the manager of `interface_close` applied through a pointer to
the `k`-th interface of bucket `fi`. -/
def manager_close_at (m : InterfaceManager) (fi k : Nat) : InterfaceManager :=
  if fi = 0 then { m with inet := modifyAt interface_close k m.inet }
  else if fi = 1 then { m with inet6 := modifyAt interface_close k m.inet6 }
  else m

/-- One balancer event: a successful acquire of (resp. a release of) the
`k`-th interface of bucket `fi`. -/
inductive BalancerEv where
  | acq (fi k : Nat)
  | rel (fi k : Nat)
deriving DecidableEq, Repr

/-- Apply one balancer event to the manager state. -/
def apply_ev (m : InterfaceManager) : BalancerEv → InterfaceManager
  | .acq fi k => manager_open_at m fi k
  | .rel fi k => manager_close_at m fi k

/-- Run a sequence of acquire/release events from a starting manager. -/
def run_trace (m : InterfaceManager) (tr : List BalancerEv) : InterfaceManager :=
  tr.foldl apply_ev m

/-- Number of acquires of interface `(fi, k)` in a trace. -/
def acqCount (tr : List BalancerEv) (fi k : Nat) : Nat :=
  (tr.filter (fun e => e = .acq fi k)).length

/-- Number of releases of interface `(fi, k)` in a trace. -/
def relCount (tr : List BalancerEv) (fi k : Nat) : Nat :=
  (tr.filter (fun e => e = .rel fi k)).length

/-- A trace has matching releases when no prefix releases an interface more
often than it has acquired it (spec: `release` is called exactly once per
successful `acquire`, and only after it). -/
def balancedB (tr : List BalancerEv) : Bool :=
  (List.range (tr.length + 1)).all fun n =>
    tr.all fun e =>
      match e with
      | .rel fi k => relCount (tr.take n) fi k ≤ acqCount (tr.take n) fi k
      | .acq _ _ => true

/-- Every interface of the manager has `use_count = 0` (the state right
after startup: `interface_manager_add_from_string` initialises
`use_count = 0`). -/
def zero_counts (m : InterfaceManager) : Prop :=
  (∀ x ∈ m.inet, x.use_count = 0) ∧ (∀ x ∈ m.inet6, x.use_count = 0)

instance (m : InterfaceManager) : Decidable (zero_counts m) := by
  unfold zero_counts; infer_instance

/-- Follows the spec's words (§4.3, claim C1), for comparison with
`interface_manager_get`: among the candidates, listed here in insertion
order and each carrying its configured `metric`, choose the one minimising
the load ratio `in_use / metric`, compared fractionally by
cross-multiplication; ties are resolved in favour of the first-inserted
candidate. -/
def spec_balancer_choice : List (Interface × Nat) → Option (Interface × Nat)
  | [] => none
  | p :: rest =>
      match spec_balancer_choice rest with
      | none => some p
      | some q =>
          if q.1.use_count * (p.2 : Int) < p.1.use_count * (q.2 : Int) then some q
          else some p

/-- C `isspace` on the default locale: space and the control characters
`\t \n \v \f \r` (code points 9 to 13). -/
def isSpaceC (c : Char) : Bool := decide (c = ' ') || decide (9 ≤ c.toNat ∧ c.toNat ≤ 13)

/-- C `isdigit`. -/
def isDigitC (c : Char) : Bool := decide ('0' ≤ c ∧ c ≤ '9')

/-- Numeric value of a decimal digit character. -/
def digitVal (c : Char) : Nat := c.toNat - '0'.toNat

/-- C `isxdigit`: decimal digit or hex letter of either case. -/
def isHexDigitC (c : Char) : Bool :=
  isDigitC c || decide ('a' ≤ c ∧ c ≤ 'f') || decide ('A' ≤ c ∧ c ≤ 'F')

/-- Numeric value of a hexadecimal digit character. -/
def hexDigitVal (c : Char) : Nat :=
  if isDigitC c then c.toNat - '0'.toNat
  else if decide ('a' ≤ c ∧ c ≤ 'f') then c.toNat - 'a'.toNat + 10
  else c.toNat - 'A'.toNat + 10

/-- The lookup table `"0123456789abcdef"` of `host_address_to_str`
(`network.c`); decimal digits print through the same first ten entries. -/
def hexDigitChar (d : Nat) : Char :=
  if d < 10 then Char.ofNat (48 + d) else Char.ofNat (87 + d)

/-- Decimal value of a digit string (how the modelled parsers accumulate). -/
def decTokenVal (t : List Char) : Nat := t.foldl (fun a c => 10 * a + digitVal c) 0

/-- Hexadecimal value of a hex-digit string. -/
def hexTokenVal (t : List Char) : Nat := t.foldl (fun a c => 16 * a + hexDigitVal c) 0

/-- Little-endian base-10 digit list, structurally recursive on a fuel
bound (any fuel at least the value itself suffices) so that the kernel can
evaluate it; agrees with `Nat.digits 10` (see `natDigits10_eq_digits`). -/
def natDigits10 : Nat → Nat → List Nat
  | 0, _ => []
  | _ + 1, 0 => []
  | fuel + 1, n + 1 => (n + 1) % 10 :: natDigits10 fuel ((n + 1) / 10)

/-- Decimal rendering of an unsigned value, as `printf "%u"` produces it:
most significant digit first, no leading zeros, `"0"` for zero. -/
def decChars (n : Nat) : List Char :=
  if n = 0 then ['0'] else (natDigits10 n n).reverse.map hexDigitChar

/-- Split a character list at every occurrence of `sep` (the token structure
the C address parsers walk through); `n` separators yield `n + 1` parts. -/
def splitSep (sep : Char) : List Char → List (List Char)
  | [] => [[]]
  | c :: rest =>
      match splitSep sep rest with
      | [] => [[]]
      | t :: ts => if c = sep then [] :: t :: ts else (c :: t) :: ts

/-- Locate the first occurrence of `"::"` in an IPv6 literal, returning the
text before and after it. -/
def findCompress : List Char → Option (List Char × List Char)
  | [] => none
  | [_] => none
  | c1 :: c2 :: rest =>
      if c1 = ':' ∧ c2 = ':' then some ([], rest)
      else (findCompress (c2 :: rest)).map (fun pr => (c1 :: pr.1, pr.2))

/-- A 16-bit group token of an IPv6 literal: one to four hex digits. -/
def hexTokenValid (t : List Char) : Bool :=
  decide (t ≠ []) && decide (t.length ≤ 4) && t.all isHexDigitC

/-- A decimal octet token of an IPv4 literal: digits only, no redundant
leading zero, value at most 255. -/
def decOctetValid (t : List Char) : Bool :=
  decide (t ≠ []) && t.all isDigitC &&
  (decide (t.head? ≠ some '0') || decide (t.length = 1)) &&
  decide (decTokenVal t ≤ 255)

/-- Model of the C library `inet_pton(AF_INET, ...)` (an external
collaborator per spec §6): exactly four dot-separated decimal octets. -/
def pton4 (s : List Char) : Option (Nat × Nat × Nat × Nat) :=
  match splitSep '.' s with
  | [a, b, c, d] =>
      if decOctetValid a && decOctetValid b && decOctetValid c && decOctetValid d then
        some (decTokenVal a, decTokenVal b, decTokenVal c, decTokenVal d)
      else none
  | _ => none

/-- Model of the C library `inet_pton(AF_INET6, ...)` (an external
collaborator per spec §6): colon-separated 16-bit hex groups, with at most
one `::` standing for a run of at least one zero group so that the total is
eight groups.  The trailing embedded-IPv4 form (`::ffff:1.2.3.4`) is not
modelled; no output of the repository's formatter uses it. -/
def pton6 (s : List Char) : Option (List Nat) :=
  match findCompress s with
  | none =>
      let toks := splitSep ':' s
      if decide (toks.length = 8) && toks.all hexTokenValid then
        some (toks.map hexTokenVal)
      else none
  | some (pre, post) =>
      if (findCompress post).isSome then none
      else
        let preToks := if pre = [] then [] else splitSep ':' pre
        let postToks := if post = [] then [] else splitSep ':' post
        if preToks.all hexTokenValid && postToks.all hexTokenValid &&
           decide (preToks.length + postToks.length ≤ 7) then
          some (preToks.map hexTokenVal ++
                List.replicate (8 - preToks.length - postToks.length) 0 ++
                postToks.map hexTokenVal)
        else none

/-- Modelled from the spec: `split_string` (utils.c, which is not under
src/) splits its input at the last occurrence of the separator, returning
the text before and after it, and fails when the separator does not occur
(spec §4.1: `socket_from_str` "splits on the last `:`"). -/
def split_string (s : List Char) (sep : Char) : Option (List Char × List Char) :=
  match s with
  | [] => none
  | c :: rest =>
      match split_string rest sep with
      | some pr => some (c :: pr.1, pr.2)
      | none => if c = sep then some ([], rest) else none

/-- Modelled from the spec: `parse_long` (utils.c, which is not under src/)
parses the whole string as a decimal number (spec §4.1: the port is "parsed
as decimal"); the inputs the repository feeds it are port and metric
fields, so the model covers unsigned decimal numerals. -/
def parse_long (s : List Char) : Option Nat :=
  if s ≠ [] ∧ s.all isDigitC then some (decTokenVal s) else none

/-- Stand-in for the `memset(&addr, 0, ...)`-cleared local the parsers fill
in; it is never observable because the parsers write their out-parameter
only after a successful conversion. -/
def zero_host : HostAddress := .inet 0 0 0 0

/-- `host_address_from_str` (network.c): skip leading whitespace; a leading
`[` selects the IPv6 branch, which strips everything from the closing `]`
on and converts the inside with `inet_pton(AF_INET6)`; otherwise the whole
remaining text is converted with `inet_pton(AF_INET)`.  The out-parameter
`addr_out` is written only by the final `*addr_out = addr` on success. -/
def host_address_from_str (str : List Char) (addr_out : HostAddress) :
    Status × HostAddress :=
  let str' := str.dropWhile isSpaceC
  if str'.head? = some '[' then
    match split_string (str'.drop 1) ']' with
    | none => (.failure, addr_out)
    | some pr =>
        match pton6 pr.1 with
        | none => (.failure, addr_out)
        | some gs => (.success, .inet6 gs)
  else
    match pton4 str' with
    | none => (.failure, addr_out)
    | some o => (.success, .inet o.1 o.2.1 o.2.2.1 o.2.2.2)

/-- The run-of-zeroes scan of `host_address_to_str` (network.c): one pass
over the eight groups maintaining the current run `(pos, len)` and the best
run `(maxpos, maxlen)`, updating the best only on strictly greater length. -/
def findRunAux : List Nat → Nat → Int → Nat → Int → Nat → Int × Nat
  | [], _, _, _, maxpos, maxlen => (maxpos, maxlen)
  | g :: rest, i, pos, len, maxpos, maxlen =>
      if g ≠ 0 then findRunAux rest (i + 1) (-1) 0 maxpos maxlen
      else
        let pos' := if pos = -1 then (i : Int) else pos
        let len' := if pos = -1 then 1 else len + 1
        if maxlen < len' then findRunAux rest (i + 1) pos' len' pos' len'
        else findRunAux rest (i + 1) pos' len' maxpos maxlen

/-- The 16-bit-group printer of `host_address_to_str` (network.c): digits
from nibble `j = 3` down to `0`, suppressed until the first nonzero digit
(`mode`), with the last digit always printed; `(part >> (j*4)) & 0xf` is
written arithmetically as `part / 16 ^ j % 16`. -/
def hexChars (part : Nat) : List Char :=
  (([3, 2, 1, 0] : List Nat).foldl
    (fun (acc : Bool × List Char) j =>
      let digit := part / 16 ^ j % 16
      let mode := acc.1 || decide (digit ≠ 0) || decide (j = 0)
      if mode then (mode, acc.2 ++ [hexDigitChar digit]) else (mode, acc.2))
    (false, [])).2

/-- The output loop of `host_address_to_str` (network.c): at index `maxpos`
emit `::` and jump past the zero run (`i += maxlen - 1` plus the loop
increment); elsewhere emit a separating `:` when `colon_flag` is set and
then the group in minimal hex.  The first argument counts the remaining
loop iterations — the C loop runs `i` from 0 to 7, so at most 8 iteration
steps occur and the printer passes 8; making the recursion structural on
this bound keeps the function kernel-computable. -/
def writeAux (maxpos : Int) (maxlen : Nat) : Nat → List Nat → Nat → Bool → List Char
  | 0, _, _, _ => []
  | _ + 1, [], _, _ => []
  | fuel + 1, g :: rest, i, colon_flag =>
      if (i : Int) = maxpos then
        ':' :: ':' :: writeAux maxpos maxlen fuel (rest.drop (maxlen - 1)) (i + maxlen) false
      else
        (if colon_flag then [':'] else []) ++ hexChars g ++
          writeAux maxpos maxlen fuel rest (i + 1) true

/-- `host_address_to_str` (network.c): IPv4 prints as `%u.%u.%u.%u`; IPv6
prints bracketed, with the best zero run found by the scan compressed to
`::`. -/
def host_address_to_str : HostAddress → List Char
  | .inet o0 o1 o2 o3 =>
      decChars o0 ++ '.' :: decChars o1 ++ '.' :: decChars o2 ++ '.' :: decChars o3
  | .inet6 gs =>
      let mr := findRunAux gs 0 (-1) 0 (-1) 0
      '[' :: (writeAux mr.1 mr.2 8 gs 0 false ++ [']'])

/-- `socket_address_to_str` (network.c): the host text followed by
`":%u"` of `ntohs(addr.port)`. -/
def socket_address_to_str (addr : SocketAddress) : List Char :=
  host_address_to_str addr.host ++ ':' :: decChars addr.port

/-- `socket_address_from_str` (network.c): split at the last `:`; require a
nonempty port field that `parse_long` accepts; store `htons(port)` (the
16-bit truncation is the explicit `% 65536`); parse the host part; write
the out-parameter only when the host conversion succeeds. -/
def socket_address_from_str (str : List Char) (addr_out : SocketAddress) :
    Status × SocketAddress :=
  match split_string str ':' with
  | none => (.failure, addr_out)
  | some pr =>
      if pr.2 = [] then (.failure, addr_out)
      else
        match parse_long pr.2 with
        | none => (.failure, addr_out)
        | some port =>
            match host_address_from_str pr.1 zero_host with
            | (.success, h) => (.success, { host := h, port := port % 65536 })
            | (.failure, _) => (.failure, addr_out)

/-- `interface_manager_add_from_string` (interface.c): a leading `[` selects
the IPv6 branch, which aborts (`g_error`, modelled `none`) when no `]`
follows, truncates at the first `]` and converts the inside; otherwise the
whole string is converted as IPv4.  The new interface is created with
`use_count = 0` and pushed on the front of its family's list. -/
def interface_manager_add_from_string (m : InterfaceManager) (desc : List Char) :
    Option InterfaceManager :=
  if desc.head? = some '[' then
    if (desc.drop 1).all (fun c => decide (c ≠ ']')) then none
    else
      match pton6 ((desc.drop 1).takeWhile (fun c => decide (c ≠ ']'))) with
      | none => none
      | some gs => some { m with inet6 := ⟨.inet6 gs, 0⟩ :: m.inet6 }
  else
    match pton4 desc with
    | none => none
    | some o => some { m with inet := ⟨.inet o.1 o.2.1 o.2.2.1 o.2.2.2, 0⟩ :: m.inet }

/-- Outcome of `main`'s argument processing (main.c): usage printed and
`exit(1)` for `-h`/`--help`; a fatal abort with its message; or entry into
the event loop with the listeners created (in creation order) and the
dispatch interfaces registered (in registration order). -/
inductive MainOutcome where
  | helpExit (servers : List SocketAddress)
  | fatal (servers : List SocketAddress) (msg : List Char)
  | run (servers : List SocketAddress) (ifaces : List (HostAddress × Nat))
deriving DecidableEq, Repr

/-- Modelled from the spec: `server_create` (server.c, not under src/)
parses its argument as a socket address and aborts on an invalid one (spec
§7 tier 1: invalid CLI argument / bind failure is fatal); the OS-level
`bind`/`listen` are assumed to succeed, being outside the model. -/
def server_create (desc : List Char) : Option SocketAddress :=
  match socket_address_from_str desc ⟨zero_host, 0⟩ with
  | (.success, a) => some a
  | (.failure, _) => none

/-- Modelled from the spec: `balancer_add_from_string` (balancer.c, not
under src/) parses a positional argument `<host-address>@<metric>` with a
positive integer metric (spec §6); an invalid argument is fatal (spec §7). -/
def balancer_add_from_string (desc : List Char) : Option (HostAddress × Nat) :=
  match split_string desc '@' with
  | none => none
  | some pr =>
      match parse_long pr.2 with
      | none => none
      | some metric =>
          if metric = 0 then none
          else
            match host_address_from_str pr.1 zero_host with
            | (.success, h) => some (h, metric)
            | (.failure, _) => none

/-- The message of the fatal abort in `main` when no positional argument was
given. -/
def msg_no_addresses : List Char := "No addresses to dispatch.".toList

/-- Stand-in message for the fatal abort inside a collaborator
(`server_create` / `balancer_add_from_string`) on an invalid argument; the
exact text lives outside src/ and only its being distinct from
`msg_no_addresses` matters. -/
def msg_invalid_argument : List Char := "Invalid argument".toList

/-- The argument loop of `main` (main.c): `-h`/`--help` prints usage and
exits; `--bind=` creates a listener and sets `bound`; anything else goes to
the balancer and counts as an interface.  After the loop: no interfaces is
the fatal "No addresses to dispatch."; otherwise, without any `--bind`, the
two default listeners are created. -/
def main_loop : List (List Char) → List SocketAddress → List (HostAddress × Nat) →
    Bool → MainOutcome
  | [], servers, ifaces, bound =>
      if ifaces = [] then .fatal servers msg_no_addresses
      else if bound then .run servers ifaces
      else
        match server_create ("127.0.0.1:1080".toList),
              server_create ("[::1]:1080".toList) with
        | some s1, some s2 => .run (servers ++ [s1, s2]) ifaces
        | _, _ => .fatal servers msg_invalid_argument
  | a :: rest, servers, ifaces, bound =>
      if a = "-h".toList ∨ a = "--help".toList then .helpExit servers
      else if ("--bind=".toList).isPrefixOf a then
        match server_create (a.drop 7) with
        | none => .fatal servers msg_invalid_argument
        | some sa => main_loop rest (servers ++ [sa]) ifaces true
      else
        match balancer_add_from_string a with
        | none => .fatal servers msg_invalid_argument
        | some p => main_loop rest servers (ifaces ++ [p]) bound

/-- `main` (main.c) from `argv[1..]`. -/
def dispatch_main (argv : List (List Char)) : MainOutcome :=
  main_loop argv [] [] false

/-- Positional (interface) arguments of a command line, under the code's
own classification: everything that is not a help flag and does not start
with `--bind=`. -/
def positional_args (argv : List (List Char)) : List (List Char) :=
  argv.filter (fun a =>
    ¬ (a = "-h".toList ∨ a = "--help".toList ∨ ("--bind=".toList).isPrefixOf a))

/-- Length of the run of zero groups a list starts with. -/
def zeroRunLen : List Nat → Nat
  | [] => 0
  | g :: rest => if g = 0 then zeroRunLen rest + 1 else 0

/-- Length of the run of zero groups starting at position `p`. -/
def zeroRunLenFrom (gs : List Nat) (p : Nat) : Nat := zeroRunLen (gs.drop p)

/-- Tokens joined by a separator character (`n` parts yield `n - 1`
separators); the inverse of `splitSep` on separator-free parts. -/
def joinSep (sep : Char) : List (List Char) → List Char
  | [] => []
  | [t] => t
  | t :: rest => t ++ sep :: joinSep sep rest

/-- Follows the spec's words (§4.1, claim C5): the position and length of
the longest run of all-zero groups, of length at least 1; among equally
long runs the earliest position wins (a later candidate replaces the best
one only when strictly longer); `none` when there is no zero group. -/
def spec_max_zero_run (gs : List Nat) : Option (Nat × Nat) :=
  (List.range gs.length).foldl
    (fun best p =>
      let l := zeroRunLenFrom gs p
      match best with
      | none => if 1 ≤ l then some (p, l) else none
      | some pr => if pr.2 < l then some (p, l) else some pr)
    none

/-- Follows the spec's words (§4.1, claim C5): minimal lowercase
hexadecimal rendering of a 16-bit group — no leading zeros, a bare `0` for
the zero group. -/
def spec_hex_group (g : Nat) : List Char :=
  if g = 0 then ['0'] else (Nat.digits 16 g).reverse.map hexDigitChar

/-- Bracketed IPv6 text built from a per-group renderer: the groups joined
by `:`, with the run `spec_max_zero_run` designates replaced by `::`. -/
def render_v6 (render : Nat → List Char) (gs : List Nat) : List Char :=
  match spec_max_zero_run gs with
  | none => '[' :: (joinSep ':' (gs.map render) ++ [']'])
  | some pr =>
      '[' :: (joinSep ':' ((gs.take pr.1).map render) ++
              ':' :: ':' :: (joinSep ':' ((gs.drop (pr.1 + pr.2)).map render) ++ [']']))

/-- Follows the spec's words (§4.1, claim C5): the canonical bracketed IPv6
form — minimal lowercase hex groups joined by `:`, the longest (earliest on
ties) zero run compressed to `::`. -/
def spec_v6_str (gs : List Nat) : List Char := render_v6 spec_hex_group gs

/-- Follows the spec's words (§4.1, claim C5): the dotted-quad IPv4 form. -/
def spec_v4_str (o0 o1 o2 o3 : Nat) : List Char :=
  joinSep '.' ([o0, o1, o2, o3].map decChars)

/-- The sixteen characters the spec allows in an IPv6 group. -/
def lowerHexChars : List Char := "0123456789abcdef".toList

/-- Well-formedness of a `HostAddress` value: the C struct stores four
octets resp. eight 16-bit groups. -/
def host_wf : HostAddress → Prop
  | .inet o0 o1 o2 o3 => o0 < 256 ∧ o1 < 256 ∧ o2 < 256 ∧ o3 < 256
  | .inet6 gs => gs.length = 8 ∧ ∀ g ∈ gs, g < 65536

instance (h : HostAddress) : Decidable (host_wf h) := by
  cases h <;> (unfold host_wf; infer_instance)

theorem select_iter_append (sel : Option Interface) (a b : List Interface) :
    select_iter sel (a ++ b) = select_iter (select_iter sel a) b := by
  induction a generalizing sel with
  | nil => rfl
  | cons x rest ih => simp only [List.cons_append, select_iter]; exact ih _

theorem get_eq_select_eligible (m : InterfaceManager) (t : Nat) :
    interface_manager_get m t = select_iter none (eligible_list m t) := by
  have h2 : List.range 2 = [0, 1] := rfl
  rw [interface_manager_get, h2, eligible_list]
  simp only [List.foldl_cons, List.foldl_nil]
  by_cases h0 : t &&& (1 <<< 0) = 0 <;> by_cases h1 : t &&& (1 <<< 1) = 0
  · simp only [if_pos h0, if_pos h1]; rfl
  · simp only [if_pos h0, if_neg h1]; rfl
  · simp only [if_neg h0, if_pos h1]; rw [List.append_nil]
  · simp only [if_neg h0, if_neg h1]; rw [select_iter_append]

theorem select_iter_spec (l : List Interface) (s : Interface) :
    (select_iter (some s) l = some s ∧ ∀ y ∈ l, s.use_count ≤ y.use_count) ∨
    (∃ pre x post, l = pre ++ x :: post ∧ select_iter (some s) l = some x ∧
      x.use_count < s.use_count ∧ (∀ y ∈ pre, x.use_count < y.use_count) ∧
      (∀ y ∈ post, x.use_count ≤ y.use_count)) := by
  induction l generalizing s with
  | nil => exact Or.inl ⟨rfl, by simp⟩
  | cons a rest ih =>
    by_cases h : a.use_count < s.use_count
    · have hs : select_iter (some s) (a :: rest) = select_iter (some a) rest := by
        simp [select_iter, h]
      rcases ih a with ⟨h1, h2⟩ | ⟨pre, x, post, hl, hsel, hx, hpre, hpost⟩
      · exact Or.inr ⟨[], a, rest, rfl, by rw [hs, h1], h, by simp, h2⟩
      · refine Or.inr ⟨a :: pre, x, post, by rw [hl, List.cons_append], by rw [hs, hsel],
          lt_trans hx h, ?_, hpost⟩
        intro y hy
        rcases List.mem_cons.mp hy with rfl | hy
        · exact hx
        · exact hpre y hy
    · have hs : select_iter (some s) (a :: rest) = select_iter (some s) rest := by
        simp [select_iter, h]
      rcases ih s with ⟨h1, h2⟩ | ⟨pre, x, post, hl, hsel, hx, hpre, hpost⟩
      · refine Or.inl ⟨by rw [hs, h1], ?_⟩
        intro y hy
        rcases List.mem_cons.mp hy with rfl | hy
        · exact le_of_not_lt h
        · exact h2 y hy
      · refine Or.inr ⟨a :: pre, x, post, by rw [hl, List.cons_append], by rw [hs, hsel], hx, ?_, hpost⟩
        intro y hy
        rcases List.mem_cons.mp hy with rfl | hy
        · exact lt_of_lt_of_le hx (le_of_not_lt h)
        · exact hpre y hy

theorem select_iter_cons (a : Interface) (rest : List Interface) :
    select_iter none (a :: rest) = select_iter (some a) rest := by
  simp [select_iter]

theorem select_iter_some_isSome (l : List Interface) (s : Interface) :
    ∃ x, select_iter (some s) l = some x := by
  rcases select_iter_spec l s with ⟨h1, _⟩ | ⟨_, x, _, _, hsel, _⟩
  · exact ⟨s, h1⟩
  · exact ⟨x, hsel⟩

theorem select_iter_none_iff (l : List Interface) :
    select_iter none l = none ↔ l = [] := by
  cases l with
  | nil => simp [select_iter]
  | cons a rest =>
    rw [select_iter_cons]
    obtain ⟨x, hx⟩ := select_iter_some_isSome rest a
    simp [hx]

theorem select_iter_mem (l : List Interface) (x : Interface)
    (h : select_iter none l = some x) : x ∈ l := by
  cases l with
  | nil => simp [select_iter] at h
  | cons a rest =>
    rw [select_iter_cons] at h
    rcases select_iter_spec rest a with ⟨h1, _⟩ | ⟨pre, z, post, hl, hsel, _⟩
    · rw [h1] at h; cases h; exact List.mem_cons_self _ _
    · rw [hsel] at h; cases h
      exact List.mem_cons_of_mem _ (by rw [hl]; simp)

/-- Claim C2: a successful acquire (`interface_open`) increments the
interface's in-use count by exactly one, `interface_close` decrements it by
exactly one, and a release performed after a successful acquire restores
the in-use count (indeed the whole interface) to its previous value. -/
theorem open_close_restores_count (i : Interface) :
    interface_close (interface_open i) = i ∧
    (interface_open i).use_count = i.use_count + 1 ∧
    (interface_close i).use_count = i.use_count - 1 := by
  refine ⟨?_, rfl, rfl⟩
  cases i
  simp [interface_open, interface_close]

/-- Claim C7: `interface_manager_get` returns `none` exactly when every
family bucket selected by the mask is empty, and any interface it returns
lies in a bucket whose family bit is set in the mask. -/
theorem get_none_iff_no_eligible (m : InterfaceManager) (t : Nat) :
    (interface_manager_get m t = none ↔
      ∀ i, i < 2 → t &&& (1 <<< i) ≠ 0 → m.bucket i = []) ∧
    (∀ x, interface_manager_get m t = some x →
      ∃ i, i < 2 ∧ t &&& (1 <<< i) ≠ 0 ∧ x ∈ m.bucket i) := by
  rw [get_eq_select_eligible]
  constructor
  · rw [select_iter_none_iff, eligible_list]
    constructor
    · intro he i hi hbit
      have hparts := List.append_eq_nil.mp he
      interval_cases i
      · have h := hparts.1
        rwa [if_neg hbit] at h
      · have h := hparts.2
        rwa [if_neg hbit] at h
    · intro hall
      rw [List.append_eq_nil]
      constructor
      · by_cases h0 : t &&& (1 <<< 0) = 0
        · rw [if_pos h0]
        · rw [if_neg h0]; exact hall 0 (by omega) h0
      · by_cases h1 : t &&& (1 <<< 1) = 0
        · rw [if_pos h1]
        · rw [if_neg h1]; exact hall 1 (by omega) h1
  · intro x hx
    have hmem := select_iter_mem _ _ hx
    rw [eligible_list] at hmem
    rcases List.mem_append.mp hmem with hm | hm
    · by_cases h0 : t &&& (1 <<< 0) = 0
      · rw [if_pos h0] at hm; cases hm
      · rw [if_neg h0] at hm; exact ⟨0, by omega, h0, hm⟩
    · by_cases h1 : t &&& (1 <<< 1) = 0
      · rw [if_pos h1] at hm; cases hm
      · rw [if_neg h1] at hm; exact ⟨1, by omega, h1, hm⟩

/-- Claim C7 witness: a manager with one IPv4 interface: mask 2 finds
nothing, mask 1 returns the IPv4 interface, which lies in the INET
bucket. -/
theorem get_none_iff_no_eligible_witness :
    (interface_manager_get ⟨[⟨.inet 9 0 0 1, 0⟩], []⟩ 2 = none ↔
      ∀ i, i < 2 → 2 &&& (1 <<< i) ≠ 0 → InterfaceManager.bucket ⟨[⟨.inet 9 0 0 1, 0⟩], []⟩ i = []) ∧
    (∀ x, interface_manager_get ⟨[⟨.inet 9 0 0 1, 0⟩], []⟩ 2 = some x →
      ∃ i, i < 2 ∧ 2 &&& (1 <<< i) ≠ 0 ∧ x ∈ InterfaceManager.bucket ⟨[⟨.inet 9 0 0 1, 0⟩], []⟩ i) :=
  get_none_iff_no_eligible ⟨[⟨.inet 9 0 0 1, 0⟩], []⟩ 2

/-- Claim C1 (amended): whenever some interface is eligible,
`interface_manager_get` returns the eligible interface with minimal raw
`use_count` — the configured metric plays no part in the selection — and a
tie is broken in favour of the interface scanned first: the INET bucket
before the INET6 bucket and, within a bucket, most recently inserted first
(`interface_manager_add_from_string` pushes on the front).  The returned
interface `x` sits in the scan sequence with everything before it strictly
busier and everything after it at least as busy. -/
theorem get_returns_first_minimum (m : InterfaceManager) (t : Nat)
    (h : eligible_list m t ≠ []) :
    ∃ x pre post, interface_manager_get m t = some x ∧
      eligible_list m t = pre ++ x :: post ∧
      (∀ y ∈ pre, x.use_count < y.use_count) ∧
      (∀ y ∈ post, x.use_count ≤ y.use_count) := by
  obtain ⟨a, rest, he⟩ : ∃ a rest, eligible_list m t = a :: rest := by
    cases hh : eligible_list m t with
    | nil => exact absurd hh h
    | cons a rest => exact ⟨a, rest, rfl⟩
  rw [get_eq_select_eligible, he, select_iter_cons]
  rcases select_iter_spec rest a with ⟨h1, h2⟩ | ⟨pre, x, post, hl, hsel, hx, hpre, hpost⟩
  · exact ⟨a, [], rest, h1, rfl, by simp, h2⟩
  · exact ⟨x, a :: pre, post, hsel, by rw [hl, List.cons_append], by
      intro y hy
      rcases List.mem_cons.mp hy with rfl | hy
      · exact hx
      · exact hpre y hy, hpost⟩

/-- Claim C1 (amended) witness: two IPv4 interfaces with use counts 5
(added first, deeper in the list) and 7 (added last, at the head); mask 1
selects the one with count 5, with the decomposition putting the busier
head interface in front of it. -/
theorem get_returns_first_minimum_witness :
    eligible_list ⟨[⟨.inet 1 0 0 2, 7⟩, ⟨.inet 1 0 0 1, 5⟩], []⟩ 1 ≠ [] ∧
    ∃ x pre post,
      interface_manager_get ⟨[⟨.inet 1 0 0 2, 7⟩, ⟨.inet 1 0 0 1, 5⟩], []⟩ 1 = some x ∧
      eligible_list ⟨[⟨.inet 1 0 0 2, 7⟩, ⟨.inet 1 0 0 1, 5⟩], []⟩ 1 = pre ++ x :: post ∧
      (∀ y ∈ pre, x.use_count < y.use_count) ∧
      (∀ y ∈ post, x.use_count ≤ y.use_count) :=
  ⟨by decide, get_returns_first_minimum ⟨[⟨.inet 1 0 0 2, 7⟩, ⟨.inet 1 0 0 1, 5⟩], []⟩ 1 (by decide)⟩

/-- Claim C1 counterexample: add `1.0.0.1` and then `1.0.0.2` (both fresh,
`use_count = 0`, so all load ratios are equal for any positive metric).
The claim's rule — minimise `in_use/metric` by cross-multiplication, ties
to the first-inserted — picks `1.0.0.1` (witnessed by
`spec_balancer_choice` on the insertion-ordered list with unit metrics),
but `interface_manager_get` returns `1.0.0.2`, the most recently inserted
interface, because insertion prepends and the scan keeps the first
minimum. -/
theorem get_tie_break_counterexample :
    ((interface_manager_add_from_string interface_manager_new ("1.0.0.1".toList)).bind
      (fun m => interface_manager_add_from_string m ("1.0.0.2".toList))).map
      (fun m => interface_manager_get m 1) = some (some ⟨.inet 1 0 0 2, 0⟩) ∧
    spec_balancer_choice [(⟨.inet 1 0 0 1, 0⟩, 1), (⟨.inet 1 0 0 2, 0⟩, 1)] =
      some (⟨.inet 1 0 0 1, 0⟩, 1) ∧
    Interface.mk (.inet 1 0 0 2) 0 ≠ Interface.mk (.inet 1 0 0 1) 0 := by
  refine ⟨by decide, by decide, by decide⟩

theorem select_iter_st_eq (l : List Interface) (st : InterfaceManager × Option Interface) :
    select_iter_st st l = (st.1, select_iter st.2 l) := by
  induction l generalizing st with
  | nil => rfl
  | cons a rest ih =>
    cases st with
    | mk m sel => simp only [select_iter_st, select_iter, ih]

theorem modifyAt_get? (f : Interface → Interface) (k n : Nat) (l : List Interface) :
    (modifyAt f k l)[n]? =
      if n = k then l[n]?.map f else l[n]? := by
  induction l generalizing k n with
  | nil => cases k <;> cases n <;> simp [modifyAt]
  | cons x rest ih =>
    cases k with
    | zero => cases n with
      | zero => simp [modifyAt]
      | succ n => simp [modifyAt]
    | succ k =>
      cases n with
      | zero => simp [modifyAt]
      | succ n => simp [modifyAt, ih, Nat.succ_inj]

theorem open_at_bucket_get? (m : InterfaceManager) (fi k j n : Nat) :
    ((manager_open_at m fi k).bucket j)[n]? =
      if j = fi ∧ n = k then ((m.bucket j)[n]?).map interface_open
      else (m.bucket j)[n]? := by
  by_cases hj : j = fi
  · subst hj
    match j with
    | 0 => simp [manager_open_at, InterfaceManager.bucket, modifyAt_get?]
    | 1 => simp [manager_open_at, InterfaceManager.bucket, modifyAt_get?]
    | j + 2 => simp [manager_open_at, InterfaceManager.bucket]
  · have hbucket : (manager_open_at m fi k).bucket j = m.bucket j := by
      unfold manager_open_at
      by_cases h0 : fi = 0
      · subst h0
        match j, hj with
        | 1, _ => simp [InterfaceManager.bucket]
        | j + 2, _ => simp [InterfaceManager.bucket]
      · by_cases h1 : fi = 1
        · subst h1
          match j, hj with
          | 0, _ => simp [h0, InterfaceManager.bucket]
          | j + 2, _ => simp [h0, InterfaceManager.bucket]
        · simp [h0, h1]
    rw [hbucket, if_neg (fun hc => hj hc.1)]

theorem close_at_bucket_get? (m : InterfaceManager) (fi k j n : Nat) :
    ((manager_close_at m fi k).bucket j)[n]? =
      if j = fi ∧ n = k then ((m.bucket j)[n]?).map interface_close
      else (m.bucket j)[n]? := by
  by_cases hj : j = fi
  · subst hj
    match j with
    | 0 => simp [manager_close_at, InterfaceManager.bucket, modifyAt_get?]
    | 1 => simp [manager_close_at, InterfaceManager.bucket, modifyAt_get?]
    | j + 2 => simp [manager_close_at, InterfaceManager.bucket]
  · have hbucket : (manager_close_at m fi k).bucket j = m.bucket j := by
      unfold manager_close_at
      by_cases h0 : fi = 0
      · subst h0
        match j, hj with
        | 1, _ => simp [InterfaceManager.bucket]
        | j + 2, _ => simp [InterfaceManager.bucket]
      · by_cases h1 : fi = 1
        · subst h1
          match j, hj with
          | 0, _ => simp [h0, InterfaceManager.bucket]
          | j + 2, _ => simp [h0, InterfaceManager.bucket]
        · simp [h0, h1]
    rw [hbucket, if_neg (fun hc => hj hc.1)]

/-- Claim C9: selection alone is read-only — the state-passing rendering of
`interface_manager_get` returns the manager it was given, unchanged, and
computes the same result as the pure selection; the in-use count of an
interface changes only through the separate `interface_open` step, which
touches exactly the interface it is applied to and nothing else in the
manager. -/
theorem selection_is_read_only (m : InterfaceManager) (t : Nat) :
    (interface_manager_get_st m t).1 = m ∧
    (interface_manager_get_st m t).2 = interface_manager_get m t ∧
    (∀ fi k j n, ((manager_open_at m fi k).bucket j)[n]? =
      if j = fi ∧ n = k then ((m.bucket j)[n]?).map interface_open
      else (m.bucket j)[n]?) := by
  have hst : interface_manager_get_st m t = (m, interface_manager_get m t) := by
    have h2 : List.range 2 = [0, 1] := rfl
    rw [interface_manager_get_st, interface_manager_get, h2]
    simp only [List.foldl_cons, List.foldl_nil]
    by_cases h0 : t &&& (1 <<< 0) = 0 <;> by_cases h1 : t &&& (1 <<< 1) = 0 <;>
      simp only [if_pos, if_neg, h0, h1, if_true, if_false, ite_true, ite_false,
        select_iter_st_eq]
  exact ⟨by rw [hst], by rw [hst], fun fi k j n => open_at_bucket_get? m fi k j n⟩

theorem acqCount_cons (e : BalancerEv) (tr : List BalancerEv) (fi k : Nat) :
    acqCount (e :: tr) fi k =
      (if e = .acq fi k then 1 else 0) + acqCount tr fi k := by
  unfold acqCount
  by_cases h : e = .acq fi k <;> simp [h, List.filter_cons, Nat.add_comm]

theorem relCount_cons (e : BalancerEv) (tr : List BalancerEv) (fi k : Nat) :
    relCount (e :: tr) fi k =
      (if e = .rel fi k then 1 else 0) + relCount tr fi k := by
  unfold relCount
  by_cases h : e = .rel fi k <;> simp [h, List.filter_cons, Nat.add_comm]

theorem run_trace_bucket_get? (tr : List BalancerEv) (m : InterfaceManager) (fi k : Nat) :
    ((run_trace m tr).bucket fi)[k]? =
      ((m.bucket fi)[k]?).map
        (fun x => { x with use_count :=
          x.use_count + (acqCount tr fi k : Int) - (relCount tr fi k : Int) }) := by
  induction tr generalizing m with
  | nil =>
    simp only [run_trace, List.foldl_nil, acqCount, relCount, List.filter_nil,
      List.length_nil, Nat.cast_zero]
    cases (m.bucket fi)[k]? with
    | none => rfl
    | some x => simp
  | cons e tr ih =>
    have hc : run_trace m (e :: tr) = run_trace (apply_ev m e) tr := rfl
    rw [hc, ih, acqCount_cons, relCount_cons]
    cases e with
    | acq fi' k' =>
      have ha : apply_ev m (.acq fi' k') = manager_open_at m fi' k' := rfl
      rw [ha, open_at_bucket_get?]
      by_cases h : fi = fi' ∧ k = k'
      · obtain ⟨h1, h2⟩ := h
        subst h1; subst h2
        rw [if_pos ⟨rfl, rfl⟩, if_pos rfl, if_neg (by intro hh; cases hh)]
        cases (m.bucket fi)[k]? with
        | none => rfl
        | some x => simp [interface_open]; omega
      · rw [if_neg h,
            if_neg (show ¬(BalancerEv.acq fi' k' = BalancerEv.acq fi k) by
              intro hh; cases hh; exact h ⟨rfl, rfl⟩),
            if_neg (show ¬(BalancerEv.acq fi' k' = BalancerEv.rel fi k) by
              intro hh; cases hh)]
        simp
    | rel fi' k' =>
      have ha : apply_ev m (.rel fi' k') = manager_close_at m fi' k' := rfl
      rw [ha, close_at_bucket_get?]
      by_cases h : fi = fi' ∧ k = k'
      · obtain ⟨h1, h2⟩ := h
        subst h1; subst h2
        rw [if_pos ⟨rfl, rfl⟩, if_pos rfl, if_neg (by intro hh; cases hh)]
        cases (m.bucket fi)[k]? with
        | none => rfl
        | some x => simp [interface_close]; omega
      · rw [if_neg h,
            if_neg (show ¬(BalancerEv.rel fi' k' = BalancerEv.acq fi k) by
              intro hh; cases hh),
            if_neg (show ¬(BalancerEv.rel fi' k' = BalancerEv.rel fi k) by
              intro hh; cases hh; exact h ⟨rfl, rfl⟩)]
        simp

theorem balancedB_le (tr : List BalancerEv) (hb : balancedB tr = true) (fi k : Nat) :
    relCount tr fi k ≤ acqCount tr fi k := by
  by_cases h0 : relCount tr fi k = 0
  · omega
  · have hpos : 0 < (tr.filter (fun e => e = BalancerEv.rel fi k)).length := by
      unfold relCount at h0; omega
    rw [List.length_pos] at hpos
    obtain ⟨e, hef⟩ := List.exists_mem_of_ne_nil _ hpos
    have hmem := List.mem_filter.mp hef
    have hee : e = BalancerEv.rel fi k := by
      have := hmem.2; simpa using this
    subst hee
    unfold balancedB at hb
    rw [List.all_eq_true] at hb
    have hn := hb tr.length (by rw [List.mem_range]; omega)
    rw [List.all_eq_true] at hn
    have hthis := hn _ hmem.1
    simpa [List.take_length] using hthis

theorem zero_counts_bucket (m : InterfaceManager) (hz : zero_counts m) (fi : Nat)
    (x : Interface) (hx : x ∈ m.bucket fi) : x.use_count = 0 := by
  match fi with
  | 0 => exact hz.1 x hx
  | 1 => exact hz.2 x hx
  | fi + 2 => exact absurd hx (List.not_mem_nil x)

/-- Claim C3: starting from a freshly configured manager (all counts zero),
after any sequence of acquires and matching releases every interface's
in-use count is non-negative and equals exactly the number of successful
acquires of that interface not yet matched by a release. -/
theorem in_use_counts_unmatched_acquires (m0 : InterfaceManager) (tr : List BalancerEv)
    (hz : zero_counts m0) (hb : balancedB tr = true) (fi k : Nat) (x : Interface)
    (hx : ((run_trace m0 tr).bucket fi)[k]? = some x) :
    0 ≤ x.use_count ∧
    x.use_count = (acqCount tr fi k : Int) - (relCount tr fi k : Int) ∧
    x.use_count = ((acqCount tr fi k - relCount tr fi k : Nat) : Int) := by
  rw [run_trace_bucket_get?] at hx
  cases hx0 : (m0.bucket fi)[k]? with
  | none => rw [hx0] at hx; cases hx
  | some x0 =>
    rw [hx0] at hx
    have hx0mem : x0 ∈ m0.bucket fi := by
      have := List.getElem?_mem hx0
      exact this
    have h0 : x0.use_count = 0 := zero_counts_bucket m0 hz fi x0 hx0mem
    have hle := balancedB_le tr hb fi k
    simp only [Option.map_some'] at hx
    cases hx
    refine ⟨?_, ?_, ?_⟩ <;> simp only [h0] <;> omega

/-- Claim C3 witness: one IPv4 interface, trace acquire, release, acquire,
acquire: the final in-use count is 2 = 3 acquires − 1 release. -/
theorem in_use_counts_unmatched_acquires_witness :
    zero_counts ⟨[⟨.inet 1 0 0 1, 0⟩], []⟩ ∧
    balancedB [.acq 0 0, .rel 0 0, .acq 0 0, .acq 0 0] = true ∧
    (0 ≤ (Interface.mk (.inet 1 0 0 1) 2).use_count ∧
     (Interface.mk (.inet 1 0 0 1) 2).use_count =
       (acqCount [.acq 0 0, .rel 0 0, .acq 0 0, .acq 0 0] 0 0 : Int) -
       (relCount [.acq 0 0, .rel 0 0, .acq 0 0, .acq 0 0] 0 0 : Int) ∧
     (Interface.mk (.inet 1 0 0 1) 2).use_count =
       ((acqCount [.acq 0 0, .rel 0 0, .acq 0 0, .acq 0 0] 0 0 -
         relCount [.acq 0 0, .rel 0 0, .acq 0 0, .acq 0 0] 0 0 : Nat) : Int)) :=
  ⟨by decide, by decide,
   in_use_counts_unmatched_acquires ⟨[⟨.inet 1 0 0 1, 0⟩], []⟩
     [.acq 0 0, .rel 0 0, .acq 0 0, .acq 0 0]
     (by decide) (by decide) 0 0 ⟨.inet 1 0 0 1, 2⟩ (by decide)⟩

theorem host_from_str_dichotomy (s : List Char) (out : HostAddress) :
    (host_address_from_str s out).1 = Status.success ∨
    host_address_from_str s out = (.failure, out) := by
  simp only [host_address_from_str]
  split
  · split
    · right; rfl
    · split
      · right; rfl
      · left; rfl
  · split
    · right; rfl
    · left; rfl

theorem socket_from_str_dichotomy (s : List Char) (out : SocketAddress) :
    (socket_address_from_str s out).1 = Status.success ∨
    socket_address_from_str s out = (.failure, out) := by
  simp only [socket_address_from_str]
  split
  · right; rfl
  · split
    · right; rfl
    · split
      · right; rfl
      · split
        · left; rfl
        · right; rfl

/-- Claim C10: `host_address_from_str` and `socket_address_from_str` write
their out-parameter only on success — on every failure path the caller's
value comes back unchanged. -/
theorem parsers_no_write_on_failure (s : List Char) (h_out : HostAddress)
    (s_out : SocketAddress) :
    ((host_address_from_str s h_out).1 = .failure →
      (host_address_from_str s h_out).2 = h_out) ∧
    ((socket_address_from_str s s_out).1 = .failure →
      (socket_address_from_str s s_out).2 = s_out) := by
  constructor
  · intro h
    rcases host_from_str_dichotomy s h_out with h1 | h1
    · rw [h] at h1; cases h1
    · rw [h1]
  · intro h
    rcases socket_from_str_dichotomy s s_out with h1 | h1
    · rw [h] at h1; cases h1
    · rw [h1]

/-- Claim C10 witness: parsing the non-address `zz` fails and leaves the
out-parameters exactly as the caller set them. -/
theorem parsers_no_write_on_failure_witness :
    (host_address_from_str ("zz".toList) (.inet 7 7 7 7)).2 = .inet 7 7 7 7 ∧
    (socket_address_from_str ("zz".toList) ⟨.inet 7 7 7 7, 9⟩).2 = ⟨.inet 7 7 7 7, 9⟩ :=
  ⟨(parsers_no_write_on_failure ("zz".toList) (.inet 7 7 7 7) ⟨.inet 7 7 7 7, 9⟩).1
      (by decide),
   (parsers_no_write_on_failure ("zz".toList) (.inet 7 7 7 7) ⟨.inet 7 7 7 7, 9⟩).2
      (by decide)⟩

theorem split_string_none_iff (s : List Char) (sep : Char) :
    split_string s sep = none ↔ sep ∉ s := by
  induction s with
  | nil => simp [split_string]
  | cons c rest ih =>
    cases hr : split_string rest sep with
    | some pr =>
      have hmem : sep ∈ rest := by
        by_contra hn
        rw [ih.mpr hn] at hr
        cases hr
      constructor
      · intro h
        rw [split_string, hr] at h
        cases h
      · intro hcon
        exact absurd (List.mem_cons_of_mem c hmem) hcon
    | none =>
      have hnotin : sep ∉ rest := ih.mp hr
      by_cases hc : c = sep
      · subst hc
        constructor
        · intro h
          rw [split_string, hr] at h
          simp at h
        · intro hcon
          exact absurd (List.mem_cons_self c rest) hcon
      · constructor
        · intro _
          intro hmem
          rcases List.mem_cons.mp hmem with h1 | h1
          · exact hc h1.symm
          · exact hnotin h1
        · intro _
          simp only [split_string, hr, if_neg hc]

theorem split_string_append (a b : List Char) (sep : Char) (h : sep ∉ b) :
    split_string (a ++ sep :: b) sep = some (a, b) := by
  induction a with
  | nil =>
    simp only [List.nil_append, split_string]
    rw [(split_string_none_iff b sep).mpr h]
    simp
  | cons c a' ih =>
    simp only [List.cons_append, split_string, List.append_eq]
    rw [ih]

theorem split_string_some_inv (s : List Char) (sep : Char) (a b : List Char)
    (h : split_string s sep = some (a, b)) : s = a ++ sep :: b ∧ sep ∉ b := by
  induction s generalizing a b with
  | nil => cases h
  | cons c rest ih =>
    simp only [split_string] at h
    cases hr : split_string rest sep with
    | some pr =>
      rw [hr] at h
      simp only [Option.some_inj] at h
      have ha : c :: pr.1 = a := congrArg Prod.fst h
      have hb : pr.2 = b := congrArg Prod.snd h
      obtain ⟨hs, hnb⟩ := ih pr.1 pr.2 (by rw [hr])
      rw [← ha, ← hb]
      exact ⟨by rw [List.cons_append, ← hs], hnb⟩
    | none =>
      rw [hr] at h
      by_cases hc : c = sep
      · rw [if_pos hc] at h
        simp only [Option.some_inj] at h
        have ha : ([] : List Char) = a := congrArg Prod.fst h
        have hb : rest = b := congrArg Prod.snd h
        subst hc
        rw [← ha, ← hb]
        exact ⟨rfl, (split_string_none_iff rest c).mp hr⟩
      · rw [if_neg hc] at h; cases h

/-- Claim C6 (amended): `socket_address_from_str` succeeds exactly when the
input splits at its last `:` into a host part that parses and a nonempty
all-decimal port field; the stored port is the decimal value reduced modulo
65536 (the `htons` truncation) — so the split is indeed on the last `:`,
but a port of 0 or a value outside 1..65535 is not rejected. -/
theorem socket_from_str_success_iff (s : List Char) (junk a : SocketAddress) :
    socket_address_from_str s junk = (.success, a) ↔
    ∃ h p v hostv, s = h ++ ':' :: p ∧ ':' ∉ p ∧ parse_long p = some v ∧
      host_address_from_str h zero_host = (.success, hostv) ∧
      a = ⟨hostv, v % 65536⟩ := by
  constructor
  · intro hsucc
    unfold socket_address_from_str at hsucc
    split at hsucc
    · cases hsucc
    · rename_i pr hsp
      split at hsucc
      · cases hsucc
      · rename_i hp
        split at hsucc
        · cases hsucc
        · rename_i v hpl
          split at hsucc
          · rename_i hostv hh
            obtain ⟨hs, hnb⟩ := split_string_some_inv s ':' pr.1 pr.2 (by
              rw [hsp])
            have ha : a = ⟨hostv, v % 65536⟩ := by
              cases hsucc; rfl
            exact ⟨pr.1, pr.2, v, hostv, hs, hnb, hpl, hh, ha⟩
          · cases hsucc
  · rintro ⟨h, p, v, hostv, hs, hnp, hpl, hh, ha⟩
    subst hs; subst ha
    have hpne : p ≠ [] := by
      intro h0; subst h0; simp [parse_long] at hpl
    unfold socket_address_from_str
    rw [split_string_append h p ':' hnp]
    dsimp only
    rw [if_neg hpne, hpl, hh]

/-- Claim C6 (amended) witness: `1.2.3.4:80` splits at the colon, the port
field parses, and the parsed address carries port 80. -/
theorem socket_from_str_success_iff_witness :
    socket_address_from_str ("1.2.3.4:80".toList) ⟨.inet 7 7 7 7, 9⟩ =
      (.success, ⟨.inet 1 2 3 4, 80⟩) :=
  (socket_from_str_success_iff ("1.2.3.4:80".toList) ⟨.inet 7 7 7 7, 9⟩
      ⟨.inet 1 2 3 4, 80⟩).mpr
    ⟨"1.2.3.4".toList, "80".toList, 80, .inet 1 2 3 4,
      by decide, by decide, by decide, by decide, by decide⟩

/-- Claim C6 counterexample: the claim says a port field of 0 or outside
1..65535 fails to parse, but `socket_address_from_str` accepts `0.0.0.0:0`
(yielding port 0) and `1.2.3.4:65536` (yielding port 0 after the `htons`
truncation). -/
theorem socket_from_str_port_range_counterexample :
    socket_address_from_str ("0.0.0.0:0".toList) ⟨.inet 7 7 7 7, 9⟩ =
      (.success, ⟨.inet 0 0 0 0, 0⟩) ∧
    socket_address_from_str ("1.2.3.4:65536".toList) ⟨.inet 7 7 7 7, 9⟩ =
      (.success, ⟨.inet 1 2 3 4, 0⟩) := by
  constructor <;> decide

theorem main_loop_all_binds (argv : List (List Char)) :
    ∀ servers bound,
    (∀ a ∈ argv, ¬(a = "-h".toList ∨ a = "--help".toList)) →
    (∀ a ∈ argv, ("--bind=".toList).isPrefixOf a = true →
      (server_create (a.drop 7)).isSome) →
    positional_args argv = [] →
    ∃ srv, main_loop argv servers [] bound = .fatal srv msg_no_addresses := by
  induction argv with
  | nil =>
    intro servers bound _ _ _
    exact ⟨servers, by simp [main_loop]⟩
  | cons a rest ih =>
    intro servers bound hh hb hp
    have hahelp : ¬(a = "-h".toList ∨ a = "--help".toList) := hh a (by simp)
    have hbind : ("--bind=".toList).isPrefixOf a = true := by
      by_contra hnb
      have hcons : positional_args (a :: rest) = a :: positional_args rest := by
        unfold positional_args
        rw [List.filter_cons, if_pos (by
          simp only [decide_eq_true_eq]
          push_neg
          exact ⟨fun h1 => hahelp (Or.inl h1), fun h2 => hahelp (Or.inr h2), hnb⟩)]
      rw [hcons] at hp
      cases hp
    obtain ⟨sa, hsa⟩ := Option.isSome_iff_exists.mp (hb a (by simp) hbind)
    have hrest : positional_args rest = [] := by
      unfold positional_args at hp ⊢
      rw [List.filter_cons] at hp
      split at hp
      · cases hp
      · exact hp
    have hstep : main_loop (a :: rest) servers [] bound =
        main_loop rest (servers ++ [sa]) [] true := by
      simp only [main_loop]
      rw [if_neg hahelp, if_pos hbind, hsa]
    rw [hstep]
    exact ih (servers ++ [sa]) true
      (fun x hx => hh x (List.mem_cons_of_mem a hx))
      (fun x hx => hb x (List.mem_cons_of_mem a hx)) hrest

theorem main_loop_no_binds (argv : List (List Char)) :
    ∀ servers ifaces,
    (∀ a ∈ argv, ¬(a = "-h".toList ∨ a = "--help".toList)) →
    (∀ a ∈ argv, ¬ (("--bind=".toList).isPrefixOf a = true)) →
    (∀ a ∈ argv, (balancer_add_from_string a).isSome) →
    ifaces ≠ [] ∨ argv ≠ [] →
    ∃ ifs, main_loop argv servers ifaces false =
      .run (servers ++ [⟨.inet 127 0 0 1, 1080⟩, ⟨.inet6 [0, 0, 0, 0, 0, 0, 0, 1], 1080⟩])
        ifs := by
  induction argv with
  | nil =>
    intro servers ifaces _ _ _ hne
    have hif : ifaces ≠ [] := by
      rcases hne with h | h
      · exact h
      · exact absurd rfl h
    refine ⟨ifaces, ?_⟩
    simp only [main_loop]
    rw [if_neg hif, if_neg (by simp : ¬(false = true)),
        show server_create ("127.0.0.1:1080".toList) =
          some ⟨.inet 127 0 0 1, 1080⟩ from by decide,
        show server_create ("[::1]:1080".toList) =
          some ⟨.inet6 [0, 0, 0, 0, 0, 0, 0, 1], 1080⟩ from by decide]
  | cons a rest ih =>
    intro servers ifaces hh hnb hbal hne
    have hahelp := hh a (by simp)
    have habind := hnb a (by simp)
    obtain ⟨pm, hpm⟩ := Option.isSome_iff_exists.mp (hbal a (by simp))
    have hstep : main_loop (a :: rest) servers ifaces false =
        main_loop rest servers (ifaces ++ [pm]) false := by
      simp only [main_loop]
      rw [if_neg hahelp, if_neg habind, hpm]
    rw [hstep]
    exact ih servers (ifaces ++ [pm])
      (fun x hx => hh x (List.mem_cons_of_mem a hx))
      (fun x hx => hnb x (List.mem_cons_of_mem a hx))
      (fun x hx => hbal x (List.mem_cons_of_mem a hx))
      (Or.inl (by simp))

/-- Claim C8 (amended): for a command line containing no `-h`/`--help` and
whose `--bind=` arguments all parse (binds are assumed to succeed at the OS
level): with zero positional arguments the program aborts with the fatal
error "No addresses to dispatch."; with at least one positional argument
(all of them valid interface descriptions) and no `--bind` argument it
creates listeners on exactly `127.0.0.1:1080` and `[::1]:1080`. -/
theorem main_defaults_and_no_addresses (argv : List (List Char))
    (hnohelp : ∀ a ∈ argv, ¬(a = "-h".toList ∨ a = "--help".toList))
    (hbinds : ∀ a ∈ argv, ("--bind=".toList).isPrefixOf a = true →
      (server_create (a.drop 7)).isSome)
    (hpos : ∀ a ∈ argv, ¬ (("--bind=".toList).isPrefixOf a = true) →
      (balancer_add_from_string a).isSome) :
    (positional_args argv = [] →
      ∃ srv, dispatch_main argv = .fatal srv msg_no_addresses) ∧
    ((positional_args argv ≠ [] ∧ ∀ a ∈ argv, ¬ (("--bind=".toList).isPrefixOf a = true)) →
      ∃ ifs, dispatch_main argv =
        .run [⟨.inet 127 0 0 1, 1080⟩, ⟨.inet6 [0, 0, 0, 0, 0, 0, 0, 1], 1080⟩] ifs) := by
  constructor
  · intro hempty
    exact main_loop_all_binds argv [] false hnohelp hbinds hempty
  · rintro ⟨hne, hnb⟩
    have hargv : argv ≠ [] := by
      intro h0; subst h0; exact hne rfl
    obtain ⟨ifs, hrun⟩ := main_loop_no_binds argv [] []
      hnohelp hnb (fun a ha => hpos a ha (hnb a ha)) (Or.inr hargv)
    rw [List.nil_append] at hrun
    exact ⟨ifs, hrun⟩

/-- Claim C8 (amended) witness: the command line `127.0.0.1@1` has one
positional argument and no `--bind`; the program runs with the two default
listeners. -/
theorem main_defaults_and_no_addresses_witness :
    (positional_args [("127.0.0.1@1".toList)] = [] →
      ∃ srv, dispatch_main [("127.0.0.1@1".toList)] = .fatal srv msg_no_addresses) ∧
    ((positional_args [("127.0.0.1@1".toList)] ≠ [] ∧
      ∀ a ∈ [("127.0.0.1@1".toList)], ¬ (("--bind=".toList).isPrefixOf a = true)) →
      ∃ ifs, dispatch_main [("127.0.0.1@1".toList)] =
        .run [⟨.inet 127 0 0 1, 1080⟩, ⟨.inet6 [0, 0, 0, 0, 0, 0, 0, 1], 1080⟩] ifs) :=
  main_defaults_and_no_addresses [("127.0.0.1@1".toList)]
    (by decide) (by decide) (by decide)

/-- Claim C8 counterexample: the command line `-h` has zero positional
arguments, but the program prints usage and exits via the help path instead
of reporting the fatal error "No addresses to dispatch.". -/
theorem main_help_counterexample :
    dispatch_main [("-h".toList)] = .helpExit [] ∧
    dispatch_main [("-h".toList)] ≠ .fatal [] msg_no_addresses := by
  constructor <;> decide

theorem hexDigitVal_hexDigitChar (d : Nat) (hd : d < 16) :
    hexDigitVal (hexDigitChar d) = d := by
  interval_cases d <;> decide

theorem digitVal_hexDigitChar (d : Nat) (hd : d < 10) :
    digitVal (hexDigitChar d) = d := by
  interval_cases d <;> decide

theorem isHexDigitC_hexDigitChar (d : Nat) (hd : d < 16) :
    isHexDigitC (hexDigitChar d) = true := by
  interval_cases d <;> decide

theorem isDigitC_hexDigitChar (d : Nat) (hd : d < 10) :
    isDigitC (hexDigitChar d) = true := by
  interval_cases d <;> decide

theorem hexDigitChar_mem_lower (d : Nat) (hd : d < 16) :
    hexDigitChar d ∈ lowerHexChars := by
  interval_cases d <;> decide

theorem hexDigitChar_ne_special (d : Nat) (hd : d < 16) :
    hexDigitChar d ≠ ':' ∧ hexDigitChar d ≠ ']' ∧ hexDigitChar d ≠ '.' ∧
    hexDigitChar d ≠ '[' ∧ isSpaceC (hexDigitChar d) = false := by
  interval_cases d <;> decide

theorem hexDigitChar_eq_zero_iff (d : Nat) (hd : d < 16) :
    hexDigitChar d = '0' ↔ d = 0 := by
  interval_cases d <;> decide

theorem hexChars_digits4 (g : Nat) (hlo : 4096 ≤ g) (hg : g < 65536) :
    hexChars g = [hexDigitChar (g / 4096 % 16), hexDigitChar (g / 256 % 16),
      hexDigitChar (g / 16 % 16), hexDigitChar (g % 16)] := by
  have h3 : ¬ (g / 4096 % 16 = 0) := by
    have h : g / 4096 < 16 := by omega
    have h' : g / 4096 % 16 = g / 4096 := Nat.mod_eq_of_lt h
    omega
  simp [hexChars, h3]

theorem hexChars_digits3 (g : Nat) (hlo : 256 ≤ g) (hhi : g < 4096) :
    hexChars g = [hexDigitChar (g / 256 % 16), hexDigitChar (g / 16 % 16),
      hexDigitChar (g % 16)] := by
  have h3 : g / 4096 % 16 = 0 := by omega
  have h2 : ¬ (g / 256 % 16 = 0) := by omega
  simp [hexChars, h3, h2]

theorem hexChars_digits2 (g : Nat) (hlo : 16 ≤ g) (hhi : g < 256) :
    hexChars g = [hexDigitChar (g / 16 % 16), hexDigitChar (g % 16)] := by
  have h3 : g / 4096 % 16 = 0 := by omega
  have h2 : g / 256 % 16 = 0 := by omega
  have h1 : ¬ (g / 16 % 16 = 0) := by omega
  simp [hexChars, h3, h2, h1]

theorem hexChars_digits1 (g : Nat) (hhi : g < 16) :
    hexChars g = [hexDigitChar (g % 16)] := by
  have h3 : g / 4096 % 16 = 0 := by omega
  have h2 : g / 256 % 16 = 0 := by omega
  have h1 : g / 16 % 16 = 0 := by omega
  simp [hexChars, h3, h2, h1]

theorem hexTokenVal_hexChars (g : Nat) (hg : g < 65536) :
    hexTokenVal (hexChars g) = g := by
  by_cases h4 : 4096 ≤ g
  · rw [hexChars_digits4 g h4 hg]
    simp only [hexTokenVal, List.foldl_cons, List.foldl_nil,
      hexDigitVal_hexDigitChar _ (Nat.mod_lt _ (by omega))]
    omega
  · by_cases h3 : 256 ≤ g
    · rw [hexChars_digits3 g h3 (by omega)]
      simp only [hexTokenVal, List.foldl_cons, List.foldl_nil,
        hexDigitVal_hexDigitChar _ (Nat.mod_lt _ (by omega))]
      omega
    · by_cases h2 : 16 ≤ g
      · rw [hexChars_digits2 g h2 (by omega)]
        simp only [hexTokenVal, List.foldl_cons, List.foldl_nil,
          hexDigitVal_hexDigitChar _ (Nat.mod_lt _ (by omega))]
        omega
      · rw [hexChars_digits1 g (by omega)]
        simp only [hexTokenVal, List.foldl_cons, List.foldl_nil,
          hexDigitVal_hexDigitChar _ (Nat.mod_lt _ (by omega))]
        omega

theorem hexChars_shape (g : Nat) (hg : g < 65536) :
    ∃ ds, ds ≠ [] ∧ ds.length ≤ 4 ∧ (∀ d ∈ ds, d < 16) ∧
      hexChars g = ds.map hexDigitChar := by
  by_cases h4 : 4096 ≤ g
  · refine ⟨[g / 4096 % 16, g / 256 % 16, g / 16 % 16, g % 16], by simp, by simp, ?_, ?_⟩
    · intro d hd
      simp only [List.mem_cons, List.not_mem_nil, or_false] at hd
      rcases hd with rfl | rfl | rfl | rfl <;> omega
    · rw [hexChars_digits4 g h4 hg]; rfl
  · by_cases h3 : 256 ≤ g
    · refine ⟨[g / 256 % 16, g / 16 % 16, g % 16], by simp, by simp, ?_, ?_⟩
      · intro d hd
        simp only [List.mem_cons, List.not_mem_nil, or_false] at hd
        rcases hd with rfl | rfl | rfl <;> omega
      · rw [hexChars_digits3 g h3 (by omega)]; rfl
    · by_cases h2 : 16 ≤ g
      · refine ⟨[g / 16 % 16, g % 16], by simp, by simp, ?_, ?_⟩
        · intro d hd
          simp only [List.mem_cons, List.not_mem_nil, or_false] at hd
          rcases hd with rfl | rfl <;> omega
        · rw [hexChars_digits2 g h2 (by omega)]; rfl
      · refine ⟨[g % 16], by simp, by simp, ?_, ?_⟩
        · intro d hd
          simp only [List.mem_cons, List.not_mem_nil, or_false] at hd
          rcases hd with rfl <;> omega
        · rw [hexChars_digits1 g (by omega)]; rfl

theorem hexChars_ne_nil (g : Nat) (hg : g < 65536) : hexChars g ≠ [] := by
  obtain ⟨ds, hne, _, _, heq⟩ := hexChars_shape g hg
  rw [heq]
  intro h
  exact hne (List.map_eq_nil.mp h)

theorem hexChars_valid_token (g : Nat) (hg : g < 65536) :
    hexTokenValid (hexChars g) = true := by
  obtain ⟨ds, hne, hlen, hmem, heq⟩ := hexChars_shape g hg
  rw [hexTokenValid, heq]
  simp only [Bool.and_eq_true, decide_eq_true_eq, List.all_eq_true]
  refine ⟨⟨fun h => hne (List.map_eq_nil.mp h), by simpa using hlen⟩, ?_⟩
  intro c hc
  obtain ⟨d, hd, rfl⟩ := List.mem_map.mp hc
  exact isHexDigitC_hexDigitChar d (hmem d hd)

theorem hexChars_no_colon (g : Nat) (hg : g < 65536) :
    ∀ c ∈ hexChars g, c ≠ ':' ∧ c ≠ ']' := by
  obtain ⟨ds, _, _, hmem, heq⟩ := hexChars_shape g hg
  rw [heq]
  intro c hc
  obtain ⟨d, hd, rfl⟩ := List.mem_map.mp hc
  obtain ⟨hc1, hc2, _⟩ := hexDigitChar_ne_special d (hmem d hd)
  exact ⟨hc1, hc2⟩

theorem list_eight_shape (gs : List Nat) (hlen : gs.length = 8) :
    ∃ a0 a1 a2 a3 a4 a5 a6 a7, gs = [a0, a1, a2, a3, a4, a5, a6, a7] := by
  rcases gs with _ | ⟨g0, _ | ⟨g1, _ | ⟨g2, _ | ⟨g3, _ | ⟨g4, _ | ⟨g5,
      _ | ⟨g6, _ | ⟨g7, rest⟩⟩⟩⟩⟩⟩⟩⟩ <;>
    simp only [List.length_cons, List.length_nil] at hlen <;> try omega
  have hrest : rest = [] := List.eq_nil_of_length_eq_zero (by omega)
  subst hrest
  exact ⟨g0, g1, g2, g3, g4, g5, g6, g7, rfl⟩

set_option maxHeartbeats 4000000 in
theorem host6_eq_render (gs : List Nat) (hlen : gs.length = 8) :
    host_address_to_str (.inet6 gs) = render_v6 hexChars gs := by
  obtain ⟨g0, g1, g2, g3, g4, g5, g6, g7, rfl⟩ := list_eight_shape gs hlen
  by_cases h0 : g0 = 0 <;> by_cases h1 : g1 = 0 <;> by_cases h2 : g2 = 0 <;>
    by_cases h3 : g3 = 0 <;> by_cases h4 : g4 = 0 <;> by_cases h5 : g5 = 0 <;>
    by_cases h6 : g6 = 0 <;> by_cases h7 : g7 = 0 <;>
    simp [host_address_to_str, findRunAux, writeAux, render_v6, spec_max_zero_run,
      zeroRunLenFrom, zeroRunLen, joinSep, List.range_succ, h0, h1, h2, h3, h4, h5, h6, h7]

theorem hexChars_eq_spec_hex_group (g : Nat) (hg : g < 65536) :
    hexChars g = spec_hex_group g := by
  by_cases h0 : g = 0
  · subst h0; decide
  · rw [spec_hex_group, if_neg h0]
    by_cases h4 : 4096 ≤ g
    · have e1 : Nat.digits 16 g = g % 16 :: Nat.digits 16 (g / 16) :=
        Nat.digits_def' (by norm_num) (by omega)
      have e2 : Nat.digits 16 (g / 16) = g / 16 % 16 :: Nat.digits 16 (g / 16 / 16) :=
        Nat.digits_def' (by norm_num) (by omega)
      have e3 : Nat.digits 16 (g / 16 / 16) =
          g / 16 / 16 % 16 :: Nat.digits 16 (g / 16 / 16 / 16) :=
        Nat.digits_def' (by norm_num) (by omega)
      have e4 : Nat.digits 16 (g / 16 / 16 / 16) =
          g / 16 / 16 / 16 % 16 :: Nat.digits 16 (g / 16 / 16 / 16 / 16) :=
        Nat.digits_def' (by norm_num) (by omega)
      have e5 : g / 16 / 16 / 16 / 16 = 0 := by omega
      have d2 : g / 16 / 16 = g / 256 := by omega
      have d3 : g / 16 / 16 / 16 = g / 4096 := by omega
      have m3 : g / 4096 % 16 = g / 4096 := Nat.mod_eq_of_lt (by omega)
      rw [e1, e2, e3, e4, e5, Nat.digits_zero, hexChars_digits4 g h4 hg]
      simp [d2, d3, m3, show g / 256 / 16 % 16 = g / 4096 from by omega]
    · by_cases h3 : 256 ≤ g
      · have e1 : Nat.digits 16 g = g % 16 :: Nat.digits 16 (g / 16) :=
          Nat.digits_def' (by norm_num) (by omega)
        have e2 : Nat.digits 16 (g / 16) = g / 16 % 16 :: Nat.digits 16 (g / 16 / 16) :=
          Nat.digits_def' (by norm_num) (by omega)
        have e3 : Nat.digits 16 (g / 16 / 16) =
            g / 16 / 16 % 16 :: Nat.digits 16 (g / 16 / 16 / 16) :=
          Nat.digits_def' (by norm_num) (by omega)
        have e4 : g / 16 / 16 / 16 = 0 := by omega
        have d2 : g / 16 / 16 = g / 256 := by omega
        have m2 : g / 256 % 16 = g / 256 := Nat.mod_eq_of_lt (by omega)
        rw [e1, e2, e3, e4, Nat.digits_zero, hexChars_digits3 g h3 (by omega)]
        simp [d2, m2]
      · by_cases h2 : 16 ≤ g
        · have e1 : Nat.digits 16 g = g % 16 :: Nat.digits 16 (g / 16) :=
            Nat.digits_def' (by norm_num) (by omega)
          have e2 : Nat.digits 16 (g / 16) = g / 16 % 16 :: Nat.digits 16 (g / 16 / 16) :=
            Nat.digits_def' (by norm_num) (by omega)
          have e3 : g / 16 / 16 = 0 := by omega
          have m1 : g / 16 % 16 = g / 16 := Nat.mod_eq_of_lt (by omega)
          rw [e1, e2, e3, Nat.digits_zero, hexChars_digits2 g h2 (by omega)]
          simp [m1]
        · have e1 : Nat.digits 16 g = g % 16 :: Nat.digits 16 (g / 16) :=
            Nat.digits_def' (by norm_num) (by omega)
          have e2 : g / 16 = 0 := by omega
          have m0 : g % 16 = g := Nat.mod_eq_of_lt (by omega)
          rw [e1, e2, Nat.digits_zero, hexChars_digits1 g (by omega)]
          simp [m0]

theorem render_v6_congr (gs : List Nat) (hb : ∀ g ∈ gs, g < 65536) :
    render_v6 hexChars gs = render_v6 spec_hex_group gs := by
  cases hsr : spec_max_zero_run gs with
  | none =>
    unfold render_v6
    rw [hsr]
    dsimp only
    rw [List.map_congr_left (fun a ha => hexChars_eq_spec_hex_group a (hb a ha))]
  | some pr =>
    unfold render_v6
    rw [hsr]
    dsimp only
    rw [List.map_congr_left
        (fun a ha => hexChars_eq_spec_hex_group a (hb a (List.take_subset _ _ ha))),
      List.map_congr_left
        (fun a ha => hexChars_eq_spec_hex_group a (hb a (List.drop_subset _ _ ha)))]

theorem spec_hex_group_lower (g : Nat) (hg : g < 65536) :
    ∀ c ∈ spec_hex_group g, c ∈ lowerHexChars := by
  intro c hc
  unfold spec_hex_group at hc
  by_cases h0 : g = 0
  · rw [if_pos h0] at hc
    simp only [List.mem_singleton] at hc
    subst hc; decide
  · rw [if_neg h0] at hc
    obtain ⟨d, hd, rfl⟩ := List.mem_map.mp hc
    have hdm : d ∈ Nat.digits 16 g := List.mem_reverse.mp hd
    exact hexDigitChar_mem_lower d (Nat.digits_lt_base (by norm_num) hdm)

theorem spec_hex_group_no_leading_zero (g : Nat) (h0 : g ≠ 0) :
    (spec_hex_group g).head? ≠ some '0' := by
  unfold spec_hex_group
  rw [if_neg h0]
  have hne : Nat.digits 16 g ≠ [] := Nat.digits_ne_nil_iff_ne_zero.mpr h0
  rw [List.head?_map, List.head?_reverse, List.getLast?_eq_getLast _ hne]
  have hlast := Nat.getLast_digit_ne_zero 16 h0
  have hmem : (Nat.digits 16 g).getLast hne ∈ Nat.digits 16 g := List.getLast_mem hne
  have hlt : (Nat.digits 16 g).getLast hne < 16 := Nat.digits_lt_base (by norm_num) hmem
  intro hcon
  simp only [Option.map_some', Option.some_inj] at hcon
  exact hlast ((hexDigitChar_eq_zero_iff _ hlt).mp hcon)

/-- Claim C5: for every well-formed IPv6 address, `host_address_to_str`
produces exactly the spec's canonical bracketed form — minimal lowercase
hex groups (no leading zeros, a bare `0` for a zero group) joined by `:`,
with the longest run of zero groups (length at least 1, earliest on ties,
as `spec_max_zero_run` scans) replaced by `::`; for every IPv4 address it
produces the dotted-quad form. -/
theorem host_to_str_canonical :
    (∀ gs, gs.length = 8 → (∀ g ∈ gs, g < 65536) →
      host_address_to_str (.inet6 gs) = spec_v6_str gs) ∧
    (∀ o0 o1 o2 o3, host_address_to_str (.inet o0 o1 o2 o3) = spec_v4_str o0 o1 o2 o3) ∧
    (∀ g, g < 65536 → ∀ c ∈ spec_hex_group g, c ∈ lowerHexChars) ∧
    (∀ g, g ≠ 0 → (spec_hex_group g).head? ≠ some '0') ∧
    spec_hex_group 0 = ['0'] := by
  refine ⟨?_, ?_, spec_hex_group_lower, spec_hex_group_no_leading_zero, rfl⟩
  · intro gs hlen hb
    rw [host6_eq_render gs hlen, spec_v6_str, render_v6_congr gs hb]
  · intro o0 o1 o2 o3
    simp [host_address_to_str, spec_v4_str, joinSep]

/-- Claim C5 witness: the documentation prefix `2001:db8::1` — two nonzero
groups, a five-group zero run compressed to `::`, a trailing group — and
the canonical form agree; the rendered text is `[2001:db8::1]`. -/
theorem host_to_str_canonical_witness :
    host_address_to_str (.inet6 [8193, 3512, 0, 0, 0, 0, 0, 1]) =
      spec_v6_str [8193, 3512, 0, 0, 0, 0, 0, 1] ∧
    host_address_to_str (.inet 10 0 255 7) = spec_v4_str 10 0 255 7 ∧
    host_address_to_str (.inet6 [8193, 3512, 0, 0, 0, 0, 0, 1]) =
      ("[2001:db8::1]".toList) :=
  ⟨host_to_str_canonical.1 [8193, 3512, 0, 0, 0, 0, 0, 1] (by decide) (by decide),
   host_to_str_canonical.2.1 10 0 255 7,
   by decide⟩

theorem dec_foldl_ofDigits (L : List Nat) (hL : ∀ d ∈ L, d < 10) :
    List.foldl (fun a c => 10 * a + digitVal c) 0 ((L.reverse).map hexDigitChar) =
      Nat.ofDigits 10 L := by
  induction L with
  | nil => simp [Nat.ofDigits_nil]
  | cons d L' ih =>
    have hd : d < 10 := hL d (List.mem_cons_self d L')
    have hL' : ∀ x ∈ L', x < 10 := fun x hx => hL x (List.mem_cons_of_mem d hx)
    rw [List.reverse_cons, List.map_append, List.foldl_append, ih hL']
    simp only [List.map_cons, List.map_nil, List.foldl_cons, List.foldl_nil,
      digitVal_hexDigitChar d hd, Nat.ofDigits_cons]
    ring

theorem natDigits10_eq_digits (fuel n : Nat) (h : n ≤ fuel) :
    natDigits10 fuel n = Nat.digits 10 n := by
  induction fuel generalizing n with
  | zero =>
    have hn : n = 0 := by omega
    subst hn
    simp [natDigits10]
  | succ fuel ih =>
    cases n with
    | zero => simp [natDigits10]
    | succ m =>
      rw [natDigits10, ih ((m + 1) / 10) (by omega),
        Nat.digits_def' (by norm_num : (1 : Nat) < 10) (Nat.succ_pos m)]

theorem decChars_eq (n : Nat) :
    decChars n = if n = 0 then ['0']
      else (Nat.digits 10 n).reverse.map hexDigitChar := by
  by_cases h0 : n = 0
  · subst h0; rfl
  · rw [decChars, if_neg h0, if_neg h0, natDigits10_eq_digits n n le_rfl]

theorem decChars_shape (n : Nat) :
    ∃ (d0 : Nat) (ds : List Nat), d0 < 10 ∧ (∀ d ∈ ds, d < 10) ∧
      decChars n = hexDigitChar d0 :: ds.map hexDigitChar := by
  by_cases h0 : n = 0
  · exact ⟨0, [], by omega, by simp, by subst h0; rfl⟩
  · have hne : Nat.digits 10 n ≠ [] := Nat.digits_ne_nil_iff_ne_zero.mpr h0
    have hrev : (Nat.digits 10 n).reverse ≠ [] := by
      simpa using hne
    obtain ⟨d0, ds, hds⟩ := List.exists_cons_of_ne_nil hrev
    have hmem : ∀ d ∈ (Nat.digits 10 n).reverse, d < 10 := by
      intro d hd
      exact Nat.digits_lt_base (by norm_num) (List.mem_reverse.mp hd)
    refine ⟨d0, ds, ?_, ?_, ?_⟩
    · exact hmem d0 (by rw [hds]; exact List.mem_cons_self _ _)
    · intro d hd
      exact hmem d (by rw [hds]; exact List.mem_cons_of_mem _ hd)
    · rw [decChars_eq, if_neg h0, hds, List.map_cons]

theorem decTokenVal_decChars (n : Nat) : decTokenVal (decChars n) = n := by
  by_cases h0 : n = 0
  · subst h0; decide
  · rw [decChars_eq, if_neg h0]
    rw [decTokenVal, dec_foldl_ofDigits _ (fun d hd => Nat.digits_lt_base (by norm_num) hd)]
    exact Nat.ofDigits_digits 10 n

theorem decChars_all_digit (n : Nat) :
    ∀ c ∈ decChars n, ∃ d, d < 10 ∧ c = hexDigitChar d := by
  obtain ⟨d0, ds, hd0, hds, heq⟩ := decChars_shape n
  rw [heq]
  intro c hc
  rcases List.mem_cons.mp hc with rfl | hc
  · exact ⟨d0, hd0, rfl⟩
  · obtain ⟨d, hd, rfl⟩ := List.mem_map.mp hc
    exact ⟨d, hds d hd, rfl⟩

theorem decChars_ne_nil (n : Nat) : decChars n ≠ [] := by
  obtain ⟨d0, ds, _, _, heq⟩ := decChars_shape n
  rw [heq]
  exact List.cons_ne_nil _ _

theorem decChars_no_special (n : Nat) :
    ∀ c ∈ decChars n, c ≠ ':' ∧ c ≠ ']' ∧ c ≠ '.' := by
  intro c hc
  obtain ⟨d, hd, rfl⟩ := decChars_all_digit n c hc
  obtain ⟨h1, h2, h3, _, _⟩ := hexDigitChar_ne_special d (by omega)
  exact ⟨h1, h2, h3⟩

theorem parse_long_decChars (n : Nat) : parse_long (decChars n) = some n := by
  rw [parse_long, if_pos, decTokenVal_decChars]
  refine ⟨decChars_ne_nil n, ?_⟩
  rw [List.all_eq_true]
  intro c hc
  obtain ⟨d, hd, rfl⟩ := decChars_all_digit n c hc
  exact isDigitC_hexDigitChar d hd

theorem decChars_head_ne_zero (n : Nat) (h0 : n ≠ 0) :
    (decChars n).head? ≠ some '0' := by
  rw [decChars_eq, if_neg h0]
  have hne : Nat.digits 10 n ≠ [] := Nat.digits_ne_nil_iff_ne_zero.mpr h0
  rw [List.head?_map, List.head?_reverse, List.getLast?_eq_getLast _ hne]
  have hlast := Nat.getLast_digit_ne_zero 10 h0
  have hmem : (Nat.digits 10 n).getLast hne ∈ Nat.digits 10 n := List.getLast_mem hne
  have hlt : (Nat.digits 10 n).getLast hne < 10 := Nat.digits_lt_base (by norm_num) hmem
  intro hcon
  simp only [Option.map_some', Option.some_inj] at hcon
  exact hlast ((hexDigitChar_eq_zero_iff _ (by omega)).mp hcon)

theorem decOctetValid_decChars (n : Nat) (hn : n ≤ 255) :
    decOctetValid (decChars n) = true := by
  rw [decOctetValid]
  simp only [Bool.and_eq_true, decide_eq_true_eq, Bool.or_eq_true, List.all_eq_true]
  refine ⟨⟨⟨decChars_ne_nil n, ?_⟩, ?_⟩, by rw [decTokenVal_decChars]; omega⟩
  · intro c hc
    obtain ⟨d, hd, rfl⟩ := decChars_all_digit n c hc
    exact isDigitC_hexDigitChar d hd
  · by_cases h0 : n = 0
    · right; subst h0; decide
    · left; exact decChars_head_ne_zero n h0

theorem splitSep_ne_nil (sep : Char) (s : List Char) : splitSep sep s ≠ [] := by
  cases s with
  | nil => simp [splitSep]
  | cons c rest =>
    rw [splitSep]
    cases splitSep sep rest with
    | nil => by_cases hc : c = sep <;> simp [hc]
    | cons t ts => by_cases hc : c = sep <;> simp [hc]

theorem splitSep_no_sep (sep : Char) (t : List Char) (ht : ∀ c ∈ t, c ≠ sep) :
    splitSep sep t = [t] := by
  induction t with
  | nil => rfl
  | cons c t' ih =>
    rw [splitSep, ih (fun x hx => ht x (List.mem_cons_of_mem c hx))]
    simp [ht c (List.mem_cons_self c t')]

theorem splitSep_prepend (sep : Char) (t rest : List Char) (ht : ∀ c ∈ t, c ≠ sep) :
    splitSep sep (t ++ sep :: rest) = t :: splitSep sep rest := by
  induction t with
  | nil =>
    rw [List.nil_append, splitSep]
    cases hr : splitSep sep rest with
    | nil => exact absurd hr (splitSep_ne_nil sep rest)
    | cons t' ts => simp
  | cons c t' ih =>
    rw [List.cons_append, splitSep, ih (fun x hx => ht x (List.mem_cons_of_mem c hx))]
    simp [ht c (List.mem_cons_self c t')]

theorem splitSep_joinSep (sep : Char) (ps : List (List Char)) (hne : ps ≠ [])
    (hsep : ∀ t ∈ ps, ∀ c ∈ t, c ≠ sep) :
    splitSep sep (joinSep sep ps) = ps := by
  induction ps with
  | nil => exact absurd rfl hne
  | cons t ps' ih =>
    cases ps' with
    | nil => exact splitSep_no_sep sep t (hsep t (List.mem_cons_self _ _))
    | cons t' ps'' =>
      rw [show joinSep sep (t :: t' :: ps'') = t ++ sep :: joinSep sep (t' :: ps'') from rfl,
        splitSep_prepend sep t _ (hsep t (List.mem_cons_self _ _)),
        ih (fun h => List.noConfusion h) (fun x hx => hsep x (List.mem_cons_of_mem t hx))]

theorem findCompress_prepend (t rest : List Char) (ht : ∀ c ∈ t, c ≠ ':') :
    findCompress (t ++ rest) =
      (findCompress rest).map (fun pr => (t ++ pr.1, pr.2)) := by
  induction t with
  | nil =>
    cases hr : findCompress rest with
    | none => simp [hr]
    | some pr => simp [hr]
  | cons c t' ih =>
    have hc : c ≠ ':' := ht c (List.mem_cons_self c t')
    have ht' : ∀ x ∈ t', x ≠ ':' := fun x hx => ht x (List.mem_cons_of_mem c hx)
    rw [List.cons_append]
    cases hshape : t' ++ rest with
    | nil =>
      have ht'nil : t' = [] := by
        cases t' with
        | nil => rfl
        | cons a b => cases hshape
      have hrnil : rest = [] := by
        rw [ht'nil, List.nil_append] at hshape
        exact hshape
      subst ht'nil; subst hrnil
      rfl
    | cons c2 tail =>
      rw [findCompress, if_neg (fun hcc => hc hcc.1), ← hshape, ih ht']
      cases findCompress rest with
      | none => rfl
      | some pr => rfl

theorem joinSep_head_ne_colon (ps : List (List Char)) (t0 : List Char) (ps' : List (List Char))
    (hps : ps = t0 :: ps') (hne : t0 ≠ []) (ht0 : ∀ c ∈ t0, c ≠ ':') :
    ∃ c cs, joinSep ':' ps = c :: cs ∧ c ≠ ':' := by
  subst hps
  obtain ⟨c, t0', rfl⟩ := List.exists_cons_of_ne_nil hne
  have hc : c ≠ ':' := ht0 c (List.mem_cons_self _ _)
  cases ps' with
  | nil => exact ⟨c, t0', rfl, hc⟩
  | cons t1 ps'' => exact ⟨c, t0' ++ ':' :: joinSep ':' (t1 :: ps''), rfl, hc⟩

theorem findCompress_joinSep_none (ps : List (List Char))
    (hne : ∀ t ∈ ps, t ≠ []) (hsep : ∀ t ∈ ps, ∀ c ∈ t, c ≠ ':') :
    findCompress (joinSep ':' ps) = none := by
  induction ps with
  | nil => rfl
  | cons t ps' ih =>
    cases ps' with
    | nil =>
      have h2 : findCompress (t ++ []) =
          (findCompress []).map (fun pr => (t ++ pr.1, pr.2)) :=
        findCompress_prepend t [] (hsep t (List.mem_cons_self _ _))
      rw [List.append_nil] at h2
      rw [show joinSep ':' [t] = t from rfl, h2]
      rfl
    | cons t' ps'' =>
      rw [show joinSep ':' (t :: t' :: ps'') = t ++ ':' :: joinSep ':' (t' :: ps'') from rfl,
        findCompress_prepend t _ (hsep t (List.mem_cons_self _ _))]
      obtain ⟨c2, cs, hj, hc2⟩ := joinSep_head_ne_colon (t' :: ps'') t' ps'' rfl
        (hne t' (List.mem_cons_of_mem t (List.mem_cons_self _ _)))
        (hsep t' (List.mem_cons_of_mem t (List.mem_cons_self _ _)))
      rw [hj, findCompress, if_neg (fun hcc => hc2 hcc.2), ← hj,
        ih (fun x hx => hne x (List.mem_cons_of_mem t hx))
          (fun x hx => hsep x (List.mem_cons_of_mem t hx))]
      rfl

theorem findCompress_joinSep_append (ps : List (List Char)) (rest2 : List Char)
    (hne : ∀ t ∈ ps, t ≠ []) (hsep : ∀ t ∈ ps, ∀ c ∈ t, c ≠ ':') :
    findCompress (joinSep ':' ps ++ ':' :: ':' :: rest2) =
      some (joinSep ':' ps, rest2) := by
  induction ps with
  | nil => rfl
  | cons t ps' ih =>
    cases ps' with
    | nil =>
      rw [show joinSep ':' [t] = t from rfl,
        findCompress_prepend t _ (hsep t (List.mem_cons_self _ _)),
        show findCompress (':' :: ':' :: rest2) = some ([], rest2) from rfl]
      simp
    | cons t' ps'' =>
      rw [show joinSep ':' (t :: t' :: ps'') = t ++ ':' :: joinSep ':' (t' :: ps'') from rfl,
        List.append_assoc, List.cons_append,
        findCompress_prepend t _ (hsep t (List.mem_cons_self _ _))]
      obtain ⟨c2, cs, hj, hc2⟩ := joinSep_head_ne_colon (t' :: ps'') t' ps'' rfl
        (hne t' (List.mem_cons_of_mem t (List.mem_cons_self _ _)))
        (hsep t' (List.mem_cons_of_mem t (List.mem_cons_self _ _)))
      have hshape : joinSep ':' (t' :: ps'') ++ ':' :: ':' :: rest2 =
          c2 :: (cs ++ ':' :: ':' :: rest2) := by
        rw [hj, List.cons_append]
      rw [hshape, findCompress, if_neg (fun hcc => hc2 hcc.2), ← hshape,
        ih (fun x hx => hne x (List.mem_cons_of_mem t hx))
          (fun x hx => hsep x (List.mem_cons_of_mem t hx))]
      simp [joinSep]

theorem zeroRunLen_le_length (l : List Nat) : zeroRunLen l ≤ l.length := by
  induction l with
  | nil => simp [zeroRunLen]
  | cons g rest ih =>
    rw [zeroRunLen]
    by_cases hg : g = 0 <;> simp [hg] <;> omega

theorem zeroRunLen_decomp (l : List Nat) :
    l = List.replicate (zeroRunLen l) 0 ++ l.drop (zeroRunLen l) := by
  induction l with
  | nil => rfl
  | cons g rest ih =>
    rw [zeroRunLen]
    by_cases hg : g = 0
    · rw [if_pos hg, List.replicate_succ, List.cons_append, List.drop_succ_cons]
      subst hg
      exact congrArg (0 :: ·) ih
    · rw [if_neg hg]
      simp

theorem zeroRunLen_pos_of_head (l : List Nat) (g : Nat) (rest : List Nat)
    (hl : l = g :: rest) (hg : g = 0) : 1 ≤ zeroRunLen l := by
  subst hl; subst hg
  rw [zeroRunLen, if_pos rfl]
  omega

theorem spec_max_zero_run_none (gs : List Nat) (h : spec_max_zero_run gs = none) :
    ∀ g ∈ gs, g ≠ 0 := by
  have key : ∀ (ps : List Nat) (acc : Option (Nat × Nat)),
      (ps.foldl (fun best p =>
        let l := zeroRunLenFrom gs p
        match best with
        | none => if 1 ≤ l then some (p, l) else none
        | some pr => if pr.2 < l then some (p, l) else some pr) acc) = none →
      acc = none ∧ ∀ p ∈ ps, zeroRunLenFrom gs p = 0 := by
    intro ps
    induction ps with
    | nil => intro acc h; exact ⟨h, by simp⟩
    | cons p ps' ih =>
      intro acc h
      rw [List.foldl_cons] at h
      obtain ⟨hstep, hrest⟩ := ih _ h
      have hacc : acc = none ∧ zeroRunLenFrom gs p = 0 := by
        cases acc with
        | none =>
          dsimp only at hstep
          refine ⟨rfl, ?_⟩
          by_cases hl : 1 ≤ zeroRunLenFrom gs p
          · rw [if_pos hl] at hstep; cases hstep
          · omega
        | some pr =>
          exfalso
          dsimp only at hstep
          by_cases hl : pr.2 < zeroRunLenFrom gs p <;>
            simp [hl] at hstep
      refine ⟨hacc.1, ?_⟩
      intro q hq
      rcases List.mem_cons.mp hq with rfl | hq
      · exact hacc.2
      · exact hrest q hq
  intro g hg hg0
  obtain ⟨j, hj, hjg⟩ := List.mem_iff_getElem.mp hg
  have hdrop : gs.drop j = g :: gs.drop (j + 1) := by
    rw [List.drop_eq_getElem_cons hj, hjg]
  have hpos : 1 ≤ zeroRunLenFrom gs j :=
    zeroRunLen_pos_of_head _ g _ hdrop hg0
  have hzero := (key (List.range gs.length) none h).2 j (by
    rw [List.mem_range]; exact hj)
  omega

theorem spec_max_zero_run_some (gs : List Nat) (p l : Nat)
    (h : spec_max_zero_run gs = some (p, l)) :
    1 ≤ l ∧ l = zeroRunLenFrom gs p := by
  have key : ∀ (ps : List Nat) (acc : Option (Nat × Nat)),
      (∀ q m, acc = some (q, m) → 1 ≤ m ∧ m = zeroRunLenFrom gs q) →
      ∀ q m, (ps.foldl (fun best p =>
        let l := zeroRunLenFrom gs p
        match best with
        | none => if 1 ≤ l then some (p, l) else none
        | some pr => if pr.2 < l then some (p, l) else some pr) acc) = some (q, m) →
      1 ≤ m ∧ m = zeroRunLenFrom gs q := by
    intro ps
    induction ps with
    | nil => intro acc hacc q m h; exact hacc q m h
    | cons p ps' ih =>
      intro acc hacc q m h
      rw [List.foldl_cons] at h
      refine ih _ ?_ q m h
      intro q' m' hstep
      cases acc with
      | none =>
        dsimp only at hstep
        by_cases hl : 1 ≤ zeroRunLenFrom gs p
        · rw [if_pos hl] at hstep
          cases hstep
          exact ⟨hl, rfl⟩
        · rw [if_neg hl] at hstep; cases hstep
      | some pr =>
        dsimp only at hstep
        by_cases hl : pr.2 < zeroRunLenFrom gs p
        · simp only [if_pos hl] at hstep
          cases hstep
          have := hacc pr.1 pr.2 rfl
          exact ⟨by omega, rfl⟩
        · simp only [if_neg hl] at hstep
          cases hstep
          exact hacc _ _ rfl
  exact key (List.range gs.length) none (fun q m hqm => by cases hqm) p l h

theorem spec_max_zero_run_window (gs : List Nat) (p l : Nat)
    (h : spec_max_zero_run gs = some (p, l)) :
    1 ≤ l ∧ p + l ≤ gs.length ∧
    gs = gs.take p ++ List.replicate l 0 ++ gs.drop (p + l) := by
  obtain ⟨h1, h2⟩ := spec_max_zero_run_some gs p l h
  rw [zeroRunLenFrom] at h2
  have hlen := zeroRunLen_le_length (gs.drop p)
  rw [List.length_drop] at hlen
  have hplt : p ≤ gs.length := by
    by_contra hcon
    have hnil : gs.drop p = [] := List.drop_eq_nil_of_le (by omega)
    rw [hnil] at h2
    simp [zeroRunLen] at h2
    omega
  refine ⟨h1, by omega, ?_⟩
  conv_lhs => rw [← List.take_append_drop p gs]
  rw [List.append_assoc]
  congr 1
  have hdecomp := zeroRunLen_decomp (gs.drop p)
  rw [← h2, List.drop_drop] at hdecomp
  rw [hdecomp]

theorem joinSep_ne_nil (sep : Char) (ps : List (List Char)) (hps : ps ≠ [])
    (hne : ∀ t ∈ ps, t ≠ []) : joinSep sep ps ≠ [] := by
  cases ps with
  | nil => exact absurd rfl hps
  | cons t ps' =>
    cases ps' with
    | nil => exact hne t (List.mem_cons_self _ _)
    | cons t' ps'' =>
      rw [show joinSep sep (t :: t' :: ps'') = t ++ sep :: joinSep sep (t' :: ps'') from rfl]
      intro hcon
      obtain ⟨h1, h2⟩ := List.append_eq_nil.mp hcon
      cases h2

theorem splitSep_of_joinSep_ite (ps : List (List Char))
    (hne : ∀ t ∈ ps, t ≠ []) (hsep : ∀ t ∈ ps, ∀ c ∈ t, c ≠ ':') :
    (if joinSep ':' ps = [] then [] else splitSep ':' (joinSep ':' ps)) = ps := by
  cases hps : ps with
  | nil => rfl
  | cons t ps' =>
    rw [if_neg (joinSep_ne_nil ':' (t :: ps') (List.cons_ne_nil _ _) (hps ▸ hne)),
      splitSep_joinSep ':' (t :: ps') (List.cons_ne_nil _ _) (hps ▸ hsep)]

theorem map_hexTokenVal_hexChars (l : List Nat) (hb : ∀ g ∈ l, g < 65536) :
    (l.map hexChars).map hexTokenVal = l := by
  rw [List.map_map]
  have : ∀ g ∈ l, (hexTokenVal ∘ hexChars) g = id g := by
    intro g hg
    exact hexTokenVal_hexChars g (hb g hg)
  rw [List.map_congr_left this, List.map_id]

theorem all_hexTokenValid_map (l : List Nat) (hb : ∀ g ∈ l, g < 65536) :
    (l.map hexChars).all hexTokenValid = true := by
  rw [List.all_eq_true]
  intro t ht
  obtain ⟨g, hg, rfl⟩ := List.mem_map.mp ht
  exact hexChars_valid_token g (hb g hg)

theorem pton6_roundtrip (gs : List Nat) (hlen : gs.length = 8)
    (hb : ∀ g ∈ gs, g < 65536) :
    pton6 (match spec_max_zero_run gs with
      | none => joinSep ':' (gs.map hexChars)
      | some pr => joinSep ':' ((gs.take pr.1).map hexChars) ++
          ':' :: ':' :: joinSep ':' ((gs.drop (pr.1 + pr.2)).map hexChars)) = some gs := by
  have hall_ne : ∀ (l : List Nat), (∀ g ∈ l, g < 65536) →
      ∀ t ∈ l.map hexChars, t ≠ [] := by
    intro l hbl t ht
    obtain ⟨g, hg, rfl⟩ := List.mem_map.mp ht
    exact hexChars_ne_nil g (hbl g hg)
  have hall_sep : ∀ (l : List Nat), (∀ g ∈ l, g < 65536) →
      ∀ t ∈ l.map hexChars, ∀ c ∈ t, c ≠ ':' := by
    intro l hbl t ht c hc
    obtain ⟨g, hg, rfl⟩ := List.mem_map.mp ht
    exact (hexChars_no_colon g (hbl g hg) c hc).1
  cases hsr : spec_max_zero_run gs with
  | none =>
    have hfc : findCompress (joinSep ':' (gs.map hexChars)) = none :=
      findCompress_joinSep_none _ (hall_ne gs hb) (hall_sep gs hb)
    rw [pton6, hfc]
    dsimp only
    have hsplit : splitSep ':' (joinSep ':' (gs.map hexChars)) = gs.map hexChars :=
      splitSep_joinSep ':' _ (by
        intro hcon
        rw [List.map_eq_nil_iff] at hcon
        rw [hcon] at hlen
        cases hlen) (hall_sep gs hb)
    rw [hsplit]
    rw [if_pos (by
      simp only [Bool.and_eq_true, decide_eq_true_eq, List.length_map]
      exact ⟨hlen, all_hexTokenValid_map gs hb⟩)]
    rw [map_hexTokenVal_hexChars gs hb]
  | some pr =>
    obtain ⟨p, l⟩ := pr
    obtain ⟨h1, h2, h3⟩ := spec_max_zero_run_window gs p l hsr
    have hbpre : ∀ g ∈ gs.take p, g < 65536 :=
      fun g hg => hb g (List.take_subset _ _ hg)
    have hbpost : ∀ g ∈ gs.drop (p + l), g < 65536 :=
      fun g hg => hb g (List.drop_subset _ _ hg)
    have hfc : findCompress (joinSep ':' ((gs.take p).map hexChars) ++
        ':' :: ':' :: joinSep ':' ((gs.drop (p + l)).map hexChars)) =
        some (joinSep ':' ((gs.take p).map hexChars),
          joinSep ':' ((gs.drop (p + l)).map hexChars)) :=
      findCompress_joinSep_append _ _ (hall_ne _ hbpre) (hall_sep _ hbpre)
    rw [pton6, hfc]
    dsimp only
    have hpost : findCompress (joinSep ':' ((gs.drop (p + l)).map hexChars)) = none :=
      findCompress_joinSep_none _ (hall_ne _ hbpost) (hall_sep _ hbpost)
    rw [hpost]
    dsimp only [Option.isSome]
    rw [if_neg (by simp)]
    rw [splitSep_of_joinSep_ite _ (hall_ne _ hbpre) (hall_sep _ hbpre),
      splitSep_of_joinSep_ite _ (hall_ne _ hbpost) (hall_sep _ hbpost)]
    have hlpre : ((gs.take p).map hexChars).length = p := by
      rw [List.length_map, List.length_take]
      omega
    have hlpost : ((gs.drop (p + l)).map hexChars).length = 8 - (p + l) := by
      rw [List.length_map, List.length_drop, hlen]
    rw [if_pos (by
      simp only [Bool.and_eq_true, decide_eq_true_eq]
      exact ⟨⟨all_hexTokenValid_map _ hbpre, all_hexTokenValid_map _ hbpost⟩,
        by rw [hlpre, hlpost]; omega⟩)]
    rw [map_hexTokenVal_hexChars _ hbpre, map_hexTokenVal_hexChars _ hbpost,
      hlpre, hlpost]
    have hcount : 8 - p - (8 - (p + l)) = l := by omega
    rw [hcount, ← h3]

theorem pton4_roundtrip (o0 o1 o2 o3 : Nat) (h0 : o0 < 256) (h1 : o1 < 256)
    (h2 : o2 < 256) (h3 : o3 < 256) :
    pton4 (decChars o0 ++ '.' :: (decChars o1 ++ '.' :: (decChars o2 ++
      '.' :: decChars o3))) = some (o0, o1, o2, o3) := by
  have hnd : ∀ n : Nat, ∀ c ∈ decChars n, c ≠ '.' :=
    fun n c hc => (decChars_no_special n c hc).2.2
  have hsplit : splitSep '.' (decChars o0 ++ '.' :: (decChars o1 ++
      '.' :: (decChars o2 ++ '.' :: decChars o3))) =
      [decChars o0, decChars o1, decChars o2, decChars o3] := by
    rw [splitSep_prepend '.' _ _ (hnd o0), splitSep_prepend '.' _ _ (hnd o1),
      splitSep_prepend '.' _ _ (hnd o2), splitSep_no_sep '.' _ (hnd o3)]
  rw [pton4, hsplit]
  dsimp only
  rw [if_pos (by
    simp only [Bool.and_eq_true]
    exact ⟨⟨⟨decOctetValid_decChars o0 (by omega), decOctetValid_decChars o1 (by omega)⟩,
      decOctetValid_decChars o2 (by omega)⟩, decOctetValid_decChars o3 (by omega)⟩)]
  rw [decTokenVal_decChars, decTokenVal_decChars, decTokenVal_decChars,
    decTokenVal_decChars]

/-- Main inversion for claim C4: parsing the printed form of a well-formed
host address recovers it. -/
theorem host_roundtrip (h : HostAddress) (hwf : host_wf h) :
    host_address_from_str (host_address_to_str h) zero_host = (.success, h) := by
  cases h with
  | inet o0 o1 o2 o3 =>
    obtain ⟨h0, h1, h2, h3⟩ := hwf
    obtain ⟨d0, ds, hd0, _, hdec⟩ := decChars_shape o0
    have hns := hexDigitChar_ne_special d0 (by omega)
    have hstr : host_address_to_str (.inet o0 o1 o2 o3) =
        hexDigitChar d0 :: (ds.map hexDigitChar ++ '.' :: (decChars o1 ++
          '.' :: (decChars o2 ++ '.' :: decChars o3))) := by
      rw [show host_address_to_str (.inet o0 o1 o2 o3) = decChars o0 ++
        '.' :: decChars o1 ++ '.' :: decChars o2 ++ '.' :: decChars o3 from rfl, hdec]
      simp
    have hback : hexDigitChar d0 :: (ds.map hexDigitChar ++ '.' :: (decChars o1 ++
        '.' :: (decChars o2 ++ '.' :: decChars o3))) =
        decChars o0 ++ '.' :: (decChars o1 ++ '.' :: (decChars o2 ++
          '.' :: decChars o3)) := by
      rw [hdec]
      simp
    have hdw : List.dropWhile isSpaceC (hexDigitChar d0 :: (ds.map hexDigitChar ++
        '.' :: (decChars o1 ++ '.' :: (decChars o2 ++ '.' :: decChars o3)))) =
        hexDigitChar d0 :: (ds.map hexDigitChar ++ '.' :: (decChars o1 ++
          '.' :: (decChars o2 ++ '.' :: decChars o3))) := by
      rw [List.dropWhile_cons, if_neg (by rw [hns.2.2.2.2]; exact Bool.false_ne_true)]
    rw [host_address_from_str, hstr, hdw]
    rw [if_neg (by
      intro hcon
      simp only [List.head?_cons, Option.some_inj] at hcon
      exact hns.2.2.2.1 hcon)]
    rw [hback, pton4_roundtrip o0 o1 o2 o3 h0 h1 h2 h3]
  | inet6 gs =>
    obtain ⟨hlen, hbound⟩ := hwf
    have hstr : host_address_to_str (.inet6 gs) =
        '[' :: ((match spec_max_zero_run gs with
          | none => joinSep ':' (gs.map hexChars)
          | some pr => joinSep ':' ((gs.take pr.1).map hexChars) ++
              ':' :: ':' :: joinSep ':' ((gs.drop (pr.1 + pr.2)).map hexChars)) ++
            [']']) := by
      rw [host6_eq_render gs hlen, render_v6]
      cases hsr : spec_max_zero_run gs with
      | none => rfl
      | some pr => simp
    have hdw : List.dropWhile isSpaceC ('[' :: ((match spec_max_zero_run gs with
        | none => joinSep ':' (gs.map hexChars)
        | some pr => joinSep ':' ((gs.take pr.1).map hexChars) ++
            ':' :: ':' :: joinSep ':' ((gs.drop (pr.1 + pr.2)).map hexChars)) ++
          [']'])) =
        '[' :: ((match spec_max_zero_run gs with
        | none => joinSep ':' (gs.map hexChars)
        | some pr => joinSep ':' ((gs.take pr.1).map hexChars) ++
            ':' :: ':' :: joinSep ':' ((gs.drop (pr.1 + pr.2)).map hexChars)) ++
          [']']) := by
      rw [List.dropWhile_cons, if_neg (show ¬(isSpaceC '[' = true) by decide)]
    rw [host_address_from_str, hstr, hdw]
    simp only [List.head?_cons]
    rw [if_pos trivial]
    rw [List.drop_one, List.tail_cons,
      split_string_append _ [] ']' (by simp)]
    dsimp only
    rw [pton6_roundtrip gs hlen hbound]

/-- Claim C4: printing a well-formed socket address whose port lies in
1..65535 and parsing the result gives back exactly the original address. -/
theorem socket_roundtrip (a : SocketAddress) (hwf : host_wf a.host)
    (hp1 : 1 ≤ a.port) (hp2 : a.port ≤ 65535) (junk : SocketAddress) :
    socket_address_from_str (socket_address_to_str a) junk = (.success, a) := by
  rw [show socket_address_to_str a =
    host_address_to_str a.host ++ ':' :: decChars a.port from rfl]
  refine (socket_from_str_success_iff _ junk a).mpr
    ⟨host_address_to_str a.host, decChars a.port, a.port, a.host, rfl, ?_,
      parse_long_decChars a.port, host_roundtrip a.host hwf, ?_⟩
  · intro hmem
    exact (decChars_no_special a.port ':' hmem).1 rfl
  · cases a with
    | mk h p =>
      simp only at hp1 hp2 ⊢
      rw [Nat.mod_eq_of_lt (by omega : p < 65536)]

/-- Claim C4 witness: the address `[::1]:1080` — its printed form parses
back to the same value. -/
theorem socket_roundtrip_witness :
    host_wf (HostAddress.inet6 [0, 0, 0, 0, 0, 0, 0, 1]) ∧
    1 ≤ (1080 : Nat) ∧ (1080 : Nat) ≤ 65535 ∧
    socket_address_from_str
      (socket_address_to_str ⟨.inet6 [0, 0, 0, 0, 0, 0, 0, 1], 1080⟩)
      ⟨.inet 7 7 7 7, 9⟩ =
      (.success, ⟨.inet6 [0, 0, 0, 0, 0, 0, 0, 1], 1080⟩) :=
  ⟨by decide, by decide, by decide,
   socket_roundtrip ⟨.inet6 [0, 0, 0, 0, 0, 0, 0, 1], 1080⟩
     (by decide) (by decide) (by decide) ⟨.inet 7 7 7 7, 9⟩⟩
